import Mathlib

/-!
Non-maximum suppression of `src/operator/rcnn_utils.h`.

A shallow embedding of `mxnet::op::utils::NonMaximumSuppression` and of the
helpers it uses, followed by theorems about the keep list it writes.

Modelling conventions.

* `float` is modelled by `ℚ`: the arithmetic on coordinates, areas and overlaps
  is exact arithmetic, without rounding and without overflow.  The value `ovr`
  is a quotient of `ℚ`; the test `ovr > thresh` of the sweep (`ovrExceeds`)
  treats a zero denominator as IEEE arithmetic does, since such a quotient is no
  number of exact arithmetic: a positive numerator gives `+inf` (the test
  holds), and `0 / 0` gives a NaN (the test fails).  A second embedding of the
  function, `NonMaximumSuppression32`, rounds every operation to binary32, with
  overflow to an infinity and NaN; it serves to evaluate the code where exact
  arithmetic departs from it.
* `index_t` is modelled by `ℕ`; `static_cast<index_t>(x)` on a float is the
  natural-number floor `⌊x⌋₊`.  An index stored in a `float` cell (`order[i] = i`,
  `keep[k] = i`) is rounded as binary32 does (`floatOfIndex`): exact up to
  `2 ^ 24`, to the nearest representable value beyond.
* A `Tensor<cpu, 1>` is a length together with a cell accessor, a
  `Tensor<cpu, 2>` is its two extents, its stride and a cell accessor.
* `std::sort` is library code: it is a parameter `stdSort`, constrained by
  `StdSortSpec` (the result is a permutation of the input in which no element
  is ordered strictly before one of its predecessors by the comparator).
* The two loops of the sweep overwrite their own cursors, hence they are
  modelled with fuel: `none` means that the fuel ran out before the cursor
  reached the end.
-/

namespace RcnnUtils

/-- One-dimensional tensor `mshadow::Tensor<cpu, 1>`: extent and cells. -/
structure Tensor1 where
  shape0 : ℕ
  dptr : ℕ → ℚ

/-- Two-dimensional tensor `mshadow::Tensor<cpu, 2>`: extents, stride and cells
(`dptr i j` is the cell `t[i][j]`). -/
structure Tensor2 where
  shape0 : ℕ
  shape1 : ℕ
  stride : ℕ
  dptr : ℕ → ℕ → ℚ

/-- The contiguity test of mshadow: the last extent equals the stride. -/
def Tensor2.CheckContiguous (t : Tensor2) : Bool :=
  t.shape1 == t.stride

/-- The conversion `static_cast<index_t>(x)` of a float that holds an index. -/
def castIdx (x : ℚ) : ℕ := ⌊x⌋₊

/-- The comparator `ReverseArgsortCompl::operator()`: row `i` goes before row `j`
when its value is strictly larger. -/
def ReverseArgsortCompl (val : ℕ → ℚ) (i j : ℚ) : Bool :=
  decide (val (castIdx i) > val (castIdx j))

/-- What `std::sort` guarantees when it is called with `ReverseArgsortCompl`
(a strict weak ordering): the result is a permutation of the input, and no
element is ordered strictly before an element that precedes it. -/
def StdSortSpec (stdSort : (ℚ → ℚ → Bool) → List ℚ → List ℚ) : Prop :=
  ∀ (val : ℕ → ℚ) (l : List ℚ),
    (stdSort (ReverseArgsortCompl val) l).Perm l ∧
    (stdSort (ReverseArgsortCompl val) l).Pairwise
      (fun a b => ReverseArgsortCompl val b a = false)

/-- A concrete sort meeting `StdSortSpec`: insertion sort that places `a` before
`b` unless the comparator orders `b` strictly before `a`. -/
def insertionStdSort (cmp : ℚ → ℚ → Bool) (l : List ℚ) : List ℚ :=
  List.insertionSort (fun a b => cmp b a = false) l

/-- The value stored in `area[i]` by the first loop of `NonMaximumSuppression`. -/
def boxArea (dets : Tensor2) (i : ℕ) : ℚ :=
  (dets.dptr i 2 - dets.dptr i 0 + 1) * (dets.dptr i 3 - dets.dptr i 1 + 1)

/-- The value `ovr` computed in the inner loop of the sweep for the kept row `i`
and the candidate row `j`. -/
def ovr (dets : Tensor2) (area : ℕ → ℚ) (i j : ℕ) : ℚ :=
  let ix1 := dets.dptr i 0
  let iy1 := dets.dptr i 1
  let ix2 := dets.dptr i 2
  let iy2 := dets.dptr i 3
  let iarea := area i
  let xx1 := max ix1 (dets.dptr j 0)
  let yy1 := max iy1 (dets.dptr j 1)
  let xx2 := min ix2 (dets.dptr j 2)
  let yy2 := min iy2 (dets.dptr j 3)
  let w := max 0 (xx2 - xx1 + 1)
  let h := max 0 (yy2 - yy1 + 1)
  let inter := w * h
  inter / (iarea + area j - inter)

/-- The numerator `inter` of `ovr`, as computed in the inner loop of the sweep
for the rows `i` and `j`. -/
def interArea (dets : Tensor2) (i j : ℕ) : ℚ :=
  max 0 (min (dets.dptr i 2) (dets.dptr j 2) - max (dets.dptr i 0) (dets.dptr j 0) + 1) *
    max 0 (min (dets.dptr i 3) (dets.dptr j 3) - max (dets.dptr i 1) (dets.dptr j 1) + 1)

/-- The test `ovr > thresh` of the inner loop.  With a non-zero denominator it
compares the quotient `ovr`.  With a zero denominator the `float` quotient is
`+inf` when the numerator `inter` is positive, and the test holds; it is a NaN
when the numerator is zero, and the test fails (`inter` is never negative). -/
def ovrExceeds (dets : Tensor2) (area : ℕ → ℚ) (thresh : ℚ) (i j : ℕ) : Bool :=
  if area i + area j - interArea dets i j = 0 then decide (0 < interArea dets i j)
  else decide (ovr dets area i j > thresh)

/-- The spacing of the binary32 values around an index `i` of `index_t` (32 bits)
beyond `2 ^ 24`: `2 ^ (e - 23)` for `2 ^ e <= i < 2 ^ (e + 1)`. -/
def floatSpacing (i : ℕ) : ℕ :=
  if i < 2 ^ 25 then 2
  else if i < 2 ^ 26 then 4
  else if i < 2 ^ 27 then 8
  else if i < 2 ^ 28 then 16
  else if i < 2 ^ 29 then 32
  else if i < 2 ^ 30 then 64
  else if i < 2 ^ 31 then 128
  else 256

/-- The `float` stored by `order[i] = i` and by `keep[k] = i`: the index (an
`index_t`, below `2 ^ 32`) converted to binary32, round to nearest, ties to
even.  Indices up to `2 ^ 24` are stored exactly; beyond, the index is rounded
to a multiple of the spacing `floatSpacing i`. -/
def floatOfIndex (i : ℕ) : ℚ :=
  if i ≤ 2 ^ 24 then (i : ℚ)
  else
    let q := floatSpacing i
    let f := i / q
    let r := i % q
    if 2 * r < q then ((f * q : ℕ) : ℚ)
    else if q < 2 * r then (((f + 1) * q : ℕ) : ℚ)
    else if f % 2 = 0 then ((f * q : ℕ) : ℚ)
    else (((f + 1) * q : ℕ) : ℚ)

/-- The inner loop `for (j = i + 1; j < n; ++j)` of the sweep, whose body starts
with `j = order[j]`.  The argument `j` is the cursor at the loop test. -/
def innerLoop (dets : Tensor2) (area : ℕ → ℚ) (order : List ℚ) (thresh : ℚ) (i : ℕ) :
    ℕ → ℕ → (ℕ → ℚ) → Option (ℕ → ℚ)
  | 0, _, _ => none
  | fuel + 1, j, surprised =>
    if j < dets.shape0 then
      let j := castIdx (order.getD j 0)
      if surprised j > 0 then
        innerLoop dets area order thresh i fuel (j + 1) surprised
      else
        innerLoop dets area order thresh i fuel (j + 1)
          (if ovrExceeds dets area thresh i j then Function.update surprised j 1
            else surprised)
    else some surprised

/-- The mutable state of the sweep: the `surprised` row, the `keep` buffer and
`*out_size`. -/
structure SweepState where
  surprised : ℕ → ℚ
  keep : ℕ → ℚ
  out_size : ℕ

/-- The outer loop `for (i = 0; i < n; ++i)` of the sweep, whose body starts with
`i = order[i]`.  The argument `i` is the cursor at the loop test. -/
def outerLoop (dets : Tensor2) (area : ℕ → ℚ) (order : List ℚ) (thresh : ℚ) :
    ℕ → ℕ → SweepState → Option SweepState
  | 0, _, _ => none
  | fuel + 1, i, st =>
    if i < dets.shape0 then
      let i := castIdx (order.getD i 0)
      if st.surprised i > 0 then
        outerLoop dets area order thresh fuel (i + 1) st
      else
        match innerLoop dets area order thresh i fuel (i + 1) st.surprised with
        | none => none
        | some surprised =>
          outerLoop dets area order thresh fuel (i + 1)
            ⟨surprised, Function.update st.keep st.out_size (floatOfIndex i), st.out_size + 1⟩
    else some st

/-- What a run of `NonMaximumSuppression` leaves behind: the four rows of
`tempspace`, the `keep` buffer (the cells of `output`) and `*out_size`. -/
structure NmsResult where
  score : ℕ → ℚ
  area : ℕ → ℚ
  order : List ℚ
  surprised : ℕ → ℚ
  keep : ℕ → ℚ
  out_size : ℕ

/-- The `score` row after the first loop. -/
def scoreRow (dets tempspace : Tensor2) (i : ℕ) : ℚ :=
  if i < dets.shape0 then dets.dptr i 4 else tempspace.dptr 0 i

/-- The `area` row after the first loop. -/
def areaRow (dets tempspace : Tensor2) (i : ℕ) : ℚ :=
  if i < dets.shape0 then boxArea dets i else tempspace.dptr 1 i

/-- The `order` row after the first loop and `std::sort`. -/
def orderRow (stdSort : (ℚ → ℚ → Bool) → List ℚ → List ℚ) (dets tempspace : Tensor2) :
    List ℚ :=
  stdSort (ReverseArgsortCompl (scoreRow dets tempspace))
    (List.map floatOfIndex (List.range dets.shape0))

/-- The function `NonMaximumSuppression`.  A failed `CHECK` is `Except.error`;
`Except.ok none` means that the sweep did not finish within `fuel` iterations. -/
def NonMaximumSuppression (stdSort : (ℚ → ℚ → Bool) → List ℚ → List ℚ) (fuel : ℕ)
    (dets : Tensor2) (thresh : ℚ) (tempspace : Tensor2) (output : Tensor1) :
    Except String (Option NmsResult) :=
  if dets.shape1 ≠ 5 then Except.error "dets: [x1, y1, x2, y2, score]"
  else if dets.shape0 ≠ tempspace.shape1 then Except.error "dets.shape_[0] == tempspace->shape_[1]"
  else if tempspace.shape0 ≠ 4 then Except.error "tempspace->shape_[0] == 4"
  else if ¬ (dets.shape0 > 0) then Except.error "dets.shape_[0] > 0"
  else if dets.CheckContiguous ≠ true then Except.error "dets.CheckContiguous()"
  else if tempspace.CheckContiguous ≠ true then Except.error "tempspace->CheckContiguous()"
  else
    let score := scoreRow dets tempspace
    let area := areaRow dets tempspace
    let order := orderRow stdSort dets tempspace
    Except.ok
      ((outerLoop dets area order thresh fuel 0 ⟨fun i => tempspace.dptr 3 i, output.dptr, 0⟩).map
        (fun st => ⟨score, area, order, st.surprised, st.keep, st.out_size⟩))

/-- The keep list of a result: the first `out_size` cells of `keep`, read back
as indices. -/
def NmsResult.keepList (r : NmsResult) : List ℕ :=
  (List.range r.out_size).map (fun k => castIdx (r.keep k))

/-- A tensor with the given rows (cells outside the rows are `0`). -/
def Tensor2.ofRows (rows : List (List ℚ)) (cols : ℕ) : Tensor2 :=
  ⟨rows.length, cols, cols, fun i j => (rows.getD i []).getD j 0⟩

/-- A scratch tensor of shape `4 x n` whose cells are all zero. -/
def zeroTempspace (n : ℕ) : Tensor2 := ⟨4, n, n, fun _ _ => 0⟩

/-- An output buffer of length `n` whose cells are all zero. -/
def zeroOutput (n : ℕ) : Tensor1 := ⟨n, fun _ => 0⟩

/-- The keep list and count of a run, when the run finished. -/
def keepAndCount (x : Except String (Option NmsResult)) : Option (List ℕ × ℕ) :=
  match x with
  | Except.ok (some r) => some (r.keepList, r.out_size)
  | _ => none

/-- The indices resolved by a loop of the sweep that starts at cursor `c`: the
body reads `idx c` and the next cursor is `idx c + 1`.  `none` when the fuel
runs out before the cursor reaches `n`. -/
def cursorPath (idx : ℕ → ℕ) (n : ℕ) : ℕ → ℕ → Option (List ℕ)
  | 0, _ => none
  | fuel + 1, c =>
    if c < n then (cursorPath idx n fuel (idx c + 1)).map (fun p => idx c :: p)
    else some []

/-- One body of the inner loop, for the kept row `i` and the resolved row `j`. -/
def suppStep (dets : Tensor2) (area : ℕ → ℚ) (thresh : ℚ) (i : ℕ) (surprised : ℕ → ℚ)
    (j : ℕ) : ℕ → ℚ :=
  if surprised j > 0 then surprised
  else if ovrExceeds dets area thresh i j then Function.update surprised j 1 else surprised

/-- The sweep over an explicit list of resolved indices: the state after them. -/
def greedy (dets : Tensor2) (area : ℕ → ℚ) (thresh : ℚ) : List ℕ → SweepState → SweepState
  | [], st => st
  | i :: rest, st =>
    if st.surprised i > 0 then greedy dets area thresh rest st
    else greedy dets area thresh rest
      ⟨rest.foldl (suppStep dets area thresh i) st.surprised,
        Function.update st.keep st.out_size (floatOfIndex i), st.out_size + 1⟩

/-- The sweep over an explicit list of resolved indices: the indices it keeps. -/
def greedyKeep (dets : Tensor2) (area : ℕ → ℚ) (thresh : ℚ) : List ℕ → (ℕ → ℚ) → List ℕ
  | [], _ => []
  | i :: rest, s =>
    if s i > 0 then greedyKeep dets area thresh rest s
    else i :: greedyKeep dets area thresh rest (rest.foldl (suppStep dets area thresh i) s)

/-- The keep list held by a sweep state. -/
def SweepState.keepList (st : SweepState) : List ℕ :=
  (List.range st.out_size).map (fun k => castIdx (st.keep k))

/-- The reference greedy sweep, after the words of the specification: visit the
candidates in the given order; skip a suppressed candidate; otherwise append its
index and mark as suppressed every later candidate of the order that is not yet
suppressed and whose overlap with it exceeds the threshold. -/
def referenceSweep (overlap : ℕ → ℕ → ℚ) (threshold : ℚ) : List ℕ → (ℕ → Bool) → List ℕ
  | [], _ => []
  | i :: later, suppressed =>
    if suppressed i then referenceSweep overlap threshold later suppressed
    else i :: referenceSweep overlap threshold later
      (later.foldl (fun sup j =>
        if !sup j && decide (overlap i j > threshold) then Function.update sup j true else sup)
        suppressed)

/-- The reference greedy sweep, after the words of the specification, for a
given test "the overlap of `j` with `i` exceeds the threshold": visit the
candidates in the given order; skip a suppressed candidate; otherwise append its
index and mark as suppressed every later candidate of the order that is not yet
suppressed and whose overlap with it exceeds the threshold. -/
def referenceSweepBy (exceeds : ℕ → ℕ → Bool) : List ℕ → (ℕ → Bool) → List ℕ
  | [], _ => []
  | i :: later, suppressed =>
    if suppressed i then referenceSweepBy exceeds later suppressed
    else i :: referenceSweepBy exceeds later
      (later.foldl (fun sup j =>
        if !sup j && exceeds i j then Function.update sup j true else sup)
        suppressed)

/-- The inputs on which every `CHECK` of `NonMaximumSuppression` passes. -/
def ChecksPass (dets tempspace : Tensor2) : Prop :=
  dets.shape1 = 5 ∧ dets.shape0 = tempspace.shape1 ∧ tempspace.shape0 = 4 ∧
    0 < dets.shape0 ∧ dets.CheckContiguous = true ∧ tempspace.CheckContiguous = true

/-- The `surprised` row of the scratch tensor is all zero on entry. -/
def ZeroSurprised (dets tempspace : Tensor2) : Prop :=
  ∀ i, i < dets.shape0 → tempspace.dptr 3 i = 0

/-- The facts about the sorted `order` row that the sweep relies on, for the
resolution `idx c = static_cast<index_t>(order[c])`: it is a bijection of
`[0, n)` along which the scores do not increase. -/
structure OrderOk (idx : ℕ → ℕ) (n : ℕ) (score : ℕ → ℚ) : Prop where
  lt : ∀ c, c < n → idx c < n
  inj : ∀ c c', c < n → c' < n → idx c = idx c' → c = c'
  surj : ∀ i, i < n → ∃ c, c < n ∧ idx c = i
  sorted : ∀ c c', c < c' → c' < n → score (idx c') ≤ score (idx c)

/-- The candidate set made of the rows `rows[0], rows[1], ...` of `dets`, in that
order. -/
def gatherRows (dets : Tensor2) (rows : List ℕ) : Tensor2 :=
  ⟨rows.length, dets.shape1, dets.stride, fun a j => dets.dptr (rows.getD a 0) j⟩

/-- The concrete scenario of the specification: two boxes that overlap strongly
and a third one far away, scores `0.9`, `0.8`, `0.7`. -/
def scenarioDets : Tensor2 :=
  Tensor2.ofRows [[0, 0, 10, 10, 9 / 10], [1, 1, 11, 11, 8 / 10], [50, 50, 60, 60, 7 / 10]] 5

/-- Two boxes that do not intersect, the second one with the higher score. -/
def ascendingPair : Tensor2 :=
  Tensor2.ofRows [[0, 0, 10, 10, 1 / 10], [50, 50, 60, 60, 9 / 10]] 5

/-- Three boxes that do not intersect, with scores increasing with the row. -/
def ascendingTriple : Tensor2 :=
  Tensor2.ofRows
    [[0, 0, 10, 10, 1 / 10], [50, 50, 60, 60, 5 / 10], [100, 100, 110, 110, 9 / 10]] 5

/-- Three boxes that do not intersect, with scores `0.1`, `0.9`, `0.5`. -/
def rotatedTriple : Tensor2 :=
  Tensor2.ofRows
    [[0, 0, 10, 10, 1 / 10], [50, 50, 60, 60, 9 / 10], [100, 100, 110, 110, 5 / 10]] 5

/-- Four boxes of area `100` with scores decreasing with the row: `A`, then `B`
shifted right of `A`, then `B` shifted up and `B` shifted down. -/
def chainDets : Tensor2 :=
  Tensor2.ofRows
    [[0, 0, 9, 9, 9 / 10], [5, 0, 14, 9, 8 / 10], [5, 3, 14, 12, 7 / 10],
      [5, -3, 14, 6, 6 / 10]] 5

/-- Two identical boxes with equal scores. -/
def twinDets : Tensor2 :=
  Tensor2.ofRows [[0, 0, 9, 9, 1 / 2], [0, 0, 9, 9, 1 / 2]] 5

/-- The execution plan `Plan<OverlapExp<SrcExp, DType, srcdim>, DType>`: the plans
of the two operands, each given by its `Eval`. -/
structure OverlapPlan where
  lhs_ : ℕ → ℕ → ℚ
  rhs_ : ℕ → ℕ → ℚ

/-- The local `box_area` of `Plan<OverlapExp>::Eval`. -/
def OverlapPlan.box_area (p : OverlapPlan) (j : ℕ) : ℚ :=
  (p.rhs_ j 2 - p.rhs_ j 0 + 1) * (p.rhs_ j 3 - p.rhs_ j 1 + 1)

/-- The local `iw` of `Plan<OverlapExp>::Eval`. -/
def OverlapPlan.iw (p : OverlapPlan) (i j : ℕ) : ℚ :=
  (if p.lhs_ i 2 < p.rhs_ j 2 then p.lhs_ i 2 else p.rhs_ j 2) -
    (if p.lhs_ i 0 > p.rhs_ j 0 then p.lhs_ i 0 else p.rhs_ j 0) + 1

/-- The local `ih` of `Plan<OverlapExp>::Eval`. -/
def OverlapPlan.ih (p : OverlapPlan) (i j : ℕ) : ℚ :=
  (if p.lhs_ i 3 < p.rhs_ j 3 then p.lhs_ i 3 else p.rhs_ j 3) -
    (if p.lhs_ i 1 > p.rhs_ j 1 then p.lhs_ i 1 else p.rhs_ j 1) + 1

/-- The local `ua` of `Plan<OverlapExp>::Eval`, the denominator of the overlap. -/
def OverlapPlan.ua (p : OverlapPlan) (i j : ℕ) : ℚ :=
  (p.lhs_ i 2 - p.lhs_ i 0 + 1) * (p.lhs_ i 3 - p.lhs_ i 1 + 1) +
    p.box_area j - p.iw i j * p.ih i j

/-- The method `Plan<OverlapExp>::Eval(i, j)`. -/
def OverlapPlan.Eval (p : OverlapPlan) (i j : ℕ) : ℚ :=
  if p.iw i j < 0 then 0
  else if p.ih i j < 0 then 0
  else p.iw i j * p.ih i j / p.ua i j

/-- A box of the specification: four coordinates. -/
structure Box where
  x1 : ℚ
  y1 : ℚ
  x2 : ℚ
  y2 : ℚ

/-- The box held by row `i` of a plan or tensor. -/
def boxOfRow (t : ℕ → ℕ → ℚ) (i : ℕ) : Box :=
  ⟨t i 0, t i 1, t i 2, t i 3⟩

/-- The area of the specification, after its words:
`area(box) = max(0, x2 - x1 + 1) * max(0, y2 - y1 + 1)`. -/
def specArea (b : Box) : ℚ :=
  max 0 (b.x2 - b.x1 + 1) * max 0 (b.y2 - b.y1 + 1)

/-- The overlap of the specification, after its words: with
`iw = min(A.x2, B.x2) - max(A.x1, B.x1) + 1` and `ih` likewise on `y`, it is `0`
when `iw < 0` or `ih < 0`, and otherwise
`iw * ih / (area(A) + area(B) - iw * ih)`. -/
def specIoU (A B : Box) : ℚ :=
  let iw := min A.x2 B.x2 - max A.x1 B.x1 + 1
  let ih := min A.y2 B.y2 - max A.y1 B.y1 + 1
  if iw < 0 ∨ ih < 0 then 0
  else iw * ih / (specArea A + specArea B - iw * ih)

/-- Row `i` holds a well-formed box: `x1 <= x2` and `y1 <= y2`. -/
def WellFormed (t : ℕ → ℕ → ℚ) (i : ℕ) : Prop :=
  t i 0 ≤ t i 2 ∧ t i 1 ≤ t i 3

/-- The function `bbox_transform`; `log` is the library logarithm.  The result
is `out_targets` after the call. -/
def bbox_transform (log : ℚ → ℚ) (ex_rois gt_rois out_targets : Tensor2) :
    Except String Tensor2 :=
  if ex_rois.shape1 ≠ 4 then Except.error "ex_rois.size(1) == 4"
  else if gt_rois.shape1 ≠ 4 then Except.error "gt_rois.size(1) == 4"
  else if out_targets.shape1 ≠ 4 then Except.error "out_targets->size(1) == 4"
  else if ex_rois.shape0 ≠ gt_rois.shape0 then Except.error "ex_rois.size(0) == gt_rois.size(0)"
  else if gt_rois.shape0 ≠ out_targets.shape0 then
    Except.error "gt_rois.size(0) == out_targets->size(0)"
  else
    let num_rois := ex_rois.shape0
    Except.ok ⟨out_targets.shape0, out_targets.shape1, out_targets.stride, fun i k =>
      if i < num_rois then
        let ex_width := ex_rois.dptr i 2 - ex_rois.dptr i 0 + 1
        let ex_height := ex_rois.dptr i 3 - ex_rois.dptr i 1 + 1
        let ex_ctr_x := ex_rois.dptr i 0 + (1 / 2) * ex_width
        let ex_ctr_y := ex_rois.dptr i 1 + (1 / 2) * ex_height
        let gt_width := gt_rois.dptr i 2 - gt_rois.dptr i 0 + 1
        let gt_height := gt_rois.dptr i 3 - gt_rois.dptr i 1 + 1
        let gt_ctr_x := gt_rois.dptr i 0 + (1 / 2) * gt_width
        let gt_ctr_y := gt_rois.dptr i 1 + (1 / 2) * gt_height
        let target_dx := (gt_ctr_x - ex_ctr_x) / ex_width
        let target_dy := (gt_ctr_y - ex_ctr_y) / ex_height
        let target_dw := log gt_width - log ex_width
        let target_dh := log gt_height - log ex_height
        if k = 0 then target_dx
        else if k = 1 then target_dy
        else if k = 2 then target_dw
        else if k = 3 then target_dh
        else out_targets.dptr i k
      else out_targets.dptr i k⟩

/-- The function `bbox_transform_inv`; `exp` is the library exponential.  The
result is `out_pred_boxes` after the call.  The local `dy` of the source is read
and never used (`pred_ctr_y` is computed from `dx`), so it has no binding here. -/
def bbox_transform_inv (exp : ℚ → ℚ) (boxes deltas out_pred_boxes : Tensor2) :
    Except String Tensor2 :=
  if boxes.shape1 ≠ 4 then Except.error "boxes.size(1) == 4"
  else if deltas.shape1 ≠ 4 then Except.error "deltas.size(1) == 4"
  else if out_pred_boxes.shape1 ≠ 4 then Except.error "out_pred_boxes->size(1) == 4"
  else if boxes.shape0 ≠ deltas.shape0 then Except.error "boxes.size(0) == deltas.size(0)"
  else if deltas.shape0 ≠ out_pred_boxes.shape1 then
    Except.error "deltas.size(0) == out_pred_boxes->size(1)"
  else
    let num_boxes := boxes.shape0
    Except.ok ⟨out_pred_boxes.shape0, out_pred_boxes.shape1, out_pred_boxes.stride, fun i k =>
      if i < num_boxes then
        let width := boxes.dptr i 2 - boxes.dptr i 0 + 1
        let height := boxes.dptr i 3 - boxes.dptr i 1 + 1
        let ctr_x := boxes.dptr i 0 + (1 / 2) * width
        let ctr_y := boxes.dptr i 1 + (1 / 2) * height
        let dx := deltas.dptr i 0
        let dw := deltas.dptr i 2
        let dh := deltas.dptr i 3
        let pred_ctr_x := dx * width + ctr_x
        let pred_ctr_y := dx * height + ctr_y
        let pred_w := exp dw * width
        let pred_h := exp dh * height
        if k = 0 then pred_ctr_x - (1 / 2) * pred_w
        else if k = 1 then pred_ctr_y - (1 / 2) * pred_h
        else if k = 2 then pred_ctr_x + (1 / 2) * pred_w
        else if k = 3 then pred_ctr_y + (1 / 2) * pred_h
        else out_pred_boxes.dptr i k
      else out_pred_boxes.dptr i k⟩

/-- A tensor of the given shape whose cells are all zero. -/
def zeroTensor2 (rows cols : ℕ) : Tensor2 := ⟨rows, cols, cols, fun _ _ => 0⟩

/-- The `surprised` row left by a run, as a list of `n` cells. -/
def surprisedAfter (x : Except String (Option NmsResult)) (n : ℕ) : Option (List ℚ) :=
  match x with
  | Except.ok (some r) => some ((List.range n).map r.surprised)
  | _ => none

/-- Three boxes that do not intersect, with scores decreasing with the row. -/
def descendingTriple : Tensor2 :=
  Tensor2.ofRows
    [[0, 0, 10, 10, 9 / 10], [50, 50, 60, 60, 5 / 10], [100, 100, 110, 110, 1 / 10]] 5

/-- A scratch tensor of shape `4 x 3` whose `surprised` row holds `0, 1, 0`, as a
run on `scenarioDets` leaves it. -/
def staleTempspace : Tensor2 :=
  Tensor2.ofRows [[0, 0, 0], [0, 0, 0], [0, 0, 0], [0, 1, 0]] 3

/-- A single degenerate box, with `x2 < x1`. -/
def degenerateDets : Tensor2 :=
  Tensor2.ofRows [[0, 0, -3, 2, 1 / 2]] 5

/-- The box `(0, 0, 9, 9)` of the specification's area check. -/
def unitDets : Tensor2 :=
  Tensor2.ofRows [[0, 0, 9, 9, 1 / 2]] 5

/-- The `area` row left by a run, as a list of `n` cells. -/
def areaAfter (x : Except String (Option NmsResult)) (n : ℕ) : Option (List ℚ) :=
  match x with
  | Except.ok (some r) => some ((List.range n).map r.area)
  | _ => none

/-- A candidate set of `2 ^ 24 + 2` rows, every box being `(0, 0, 0, 0)`, whose
scores strictly decrease with the row: `-i` for the rows `i <= 2 ^ 24` and
`-(2 ^ 24 + 2)` for the last row (all of them binary32 values). -/
def hugeDets : Tensor2 :=
  ⟨2 ^ 24 + 2, 5, 5, fun i k => if k = 4 then -(((i + i / (2 ^ 24 + 1) : ℕ) : ℚ)) else 0⟩

/-- A binary32 value: a finite number, `+inf`, `-inf` or a NaN.  The sign of a
zero is not represented: a zero divisor counts as `+0`, which is what the
subtraction in the denominator of `ovr` yields whenever the numerator is
positive. -/
inductive F32 where
  | fin (q : ℚ)
  | pinf
  | ninf
  | nan
  deriving DecidableEq

/-- The power `2 ^ e` for an integer exponent. -/
def pow2 (e : ℤ) : ℚ :=
  if 0 ≤ e then ((2 ^ e.toNat : ℕ) : ℚ) else 1 / ((2 ^ (-e).toNat : ℕ) : ℚ)

/-- The largest exponent `e` among `-125, ..., k - 126` with `2 ^ e <= a`, and
`-126` (the exponent of the subnormal numbers) when there is none. -/
def binadeFrom (a : ℚ) : ℕ → ℤ
  | 0 => -126
  | k + 1 => if pow2 ((k : ℤ) - 125) ≤ a then (k : ℤ) - 125 else binadeFrom a k

/-- Rounding of a non-negative number to the nearest integer, ties to even. -/
def roundHalfEven (m : ℚ) : ℕ :=
  let f := ⌊m⌋₊
  if m - f < 1 / 2 then f
  else if 1 / 2 < m - f then f + 1
  else if f % 2 = 0 then f
  else f + 1

/-- Rounding of an exact result to binary32: 24 significant bits, exponents from
`-126` to `127`, round to nearest with ties to even, overflow to an infinity. -/
def F32.round (q : ℚ) : F32 :=
  if q = 0 then F32.fin 0
  else
    let a := |q|
    let ulp := pow2 (binadeFrom a 253 - 23)
    let v := (roundHalfEven (a / ulp) : ℚ) * ulp
    if pow2 128 ≤ v then (if 0 < q then F32.pinf else F32.ninf)
    else F32.fin (if 0 < q then v else -v)

/-- Negation of a binary32 value. -/
def F32.neg : F32 → F32
  | F32.fin q => F32.fin (-q)
  | F32.pinf => F32.ninf
  | F32.ninf => F32.pinf
  | F32.nan => F32.nan

/-- Addition of binary32 values. -/
def F32.add : F32 → F32 → F32
  | F32.nan, _ => F32.nan
  | _, F32.nan => F32.nan
  | F32.pinf, F32.ninf => F32.nan
  | F32.ninf, F32.pinf => F32.nan
  | F32.pinf, _ => F32.pinf
  | _, F32.pinf => F32.pinf
  | F32.ninf, _ => F32.ninf
  | _, F32.ninf => F32.ninf
  | F32.fin a, F32.fin b => F32.round (a + b)

/-- Subtraction of binary32 values. -/
def F32.sub (a b : F32) : F32 := F32.add a (F32.neg b)

/-- The product of an infinity (positive when `pos`) and a finite number. -/
def F32.infTimes (pos : Bool) (b : ℚ) : F32 :=
  if b = 0 then F32.nan
  else if (0 < b) = (pos = true) then F32.pinf
  else F32.ninf

/-- Multiplication of binary32 values. -/
def F32.mul : F32 → F32 → F32
  | F32.nan, _ => F32.nan
  | _, F32.nan => F32.nan
  | F32.fin a, F32.fin b => F32.round (a * b)
  | F32.fin a, F32.pinf => F32.infTimes true a
  | F32.fin a, F32.ninf => F32.infTimes false a
  | F32.pinf, F32.fin b => F32.infTimes true b
  | F32.ninf, F32.fin b => F32.infTimes false b
  | F32.pinf, F32.pinf => F32.pinf
  | F32.ninf, F32.ninf => F32.pinf
  | F32.pinf, F32.ninf => F32.ninf
  | F32.ninf, F32.pinf => F32.ninf

/-- Division of binary32 values. -/
def F32.div : F32 → F32 → F32
  | F32.nan, _ => F32.nan
  | _, F32.nan => F32.nan
  | F32.fin a, F32.fin b =>
    if b = 0 then (if a = 0 then F32.nan else if 0 < a then F32.pinf else F32.ninf)
    else F32.round (a / b)
  | F32.fin _, F32.pinf => F32.fin 0
  | F32.fin _, F32.ninf => F32.fin 0
  | F32.pinf, F32.fin b => if 0 ≤ b then F32.pinf else F32.ninf
  | F32.ninf, F32.fin b => if 0 ≤ b then F32.ninf else F32.pinf
  | F32.pinf, F32.pinf => F32.nan
  | F32.pinf, F32.ninf => F32.nan
  | F32.ninf, F32.pinf => F32.nan
  | F32.ninf, F32.ninf => F32.nan

/-- The comparison `a < b` of binary32 values; it fails when either is a NaN. -/
def F32.lt : F32 → F32 → Bool
  | F32.nan, _ => false
  | _, F32.nan => false
  | F32.fin a, F32.fin b => decide (a < b)
  | F32.fin _, F32.pinf => true
  | F32.fin _, F32.ninf => false
  | F32.pinf, _ => false
  | F32.ninf, F32.ninf => false
  | F32.ninf, _ => true

/-- The function `std::max(a, b)`, which is `(a < b) ? b : a`. -/
def F32.max (a b : F32) : F32 := if F32.lt a b then b else a

/-- The function `std::min(a, b)`, which is `(b < a) ? b : a`. -/
def F32.min (a b : F32) : F32 := if F32.lt b a then b else a

/-- The `area` row after the first loop, in binary32. -/
def areaRow32 (dets tempspace : Tensor2) (i : ℕ) : F32 :=
  if i < dets.shape0 then
    F32.mul
      (F32.add (F32.sub (F32.fin (dets.dptr i 2)) (F32.fin (dets.dptr i 0))) (F32.fin 1))
      (F32.add (F32.sub (F32.fin (dets.dptr i 3)) (F32.fin (dets.dptr i 1))) (F32.fin 1))
  else F32.fin (tempspace.dptr 1 i)

/-- The test `ovr > thresh` of the inner loop, in binary32, for the kept row `i`
and the candidate row `j`. -/
def ovrExceeds32 (dets : Tensor2) (area : ℕ → F32) (thresh : ℚ) (i j : ℕ) : Bool :=
  let ix1 := F32.fin (dets.dptr i 0)
  let iy1 := F32.fin (dets.dptr i 1)
  let ix2 := F32.fin (dets.dptr i 2)
  let iy2 := F32.fin (dets.dptr i 3)
  let iarea := area i
  let xx1 := F32.max ix1 (F32.fin (dets.dptr j 0))
  let yy1 := F32.max iy1 (F32.fin (dets.dptr j 1))
  let xx2 := F32.min ix2 (F32.fin (dets.dptr j 2))
  let yy2 := F32.min iy2 (F32.fin (dets.dptr j 3))
  let w := F32.max (F32.fin 0) (F32.add (F32.sub xx2 xx1) (F32.fin 1))
  let h := F32.max (F32.fin 0) (F32.add (F32.sub yy2 yy1) (F32.fin 1))
  let inter := F32.mul w h
  let ovr := F32.div inter (F32.sub (F32.add iarea (area j)) inter)
  F32.lt (F32.fin thresh) ovr

/-- The inner loop of the sweep, in binary32. -/
def innerLoop32 (dets : Tensor2) (area : ℕ → F32) (order : List ℚ) (thresh : ℚ) (i : ℕ) :
    ℕ → ℕ → (ℕ → ℚ) → Option (ℕ → ℚ)
  | 0, _, _ => none
  | fuel + 1, j, surprised =>
    if j < dets.shape0 then
      let j := castIdx (order.getD j 0)
      if surprised j > 0 then
        innerLoop32 dets area order thresh i fuel (j + 1) surprised
      else
        innerLoop32 dets area order thresh i fuel (j + 1)
          (if ovrExceeds32 dets area thresh i j then Function.update surprised j 1
            else surprised)
    else some surprised

/-- The outer loop of the sweep, in binary32. -/
def outerLoop32 (dets : Tensor2) (area : ℕ → F32) (order : List ℚ) (thresh : ℚ) :
    ℕ → ℕ → SweepState → Option SweepState
  | 0, _, _ => none
  | fuel + 1, i, st =>
    if i < dets.shape0 then
      let i := castIdx (order.getD i 0)
      if st.surprised i > 0 then
        outerLoop32 dets area order thresh fuel (i + 1) st
      else
        match innerLoop32 dets area order thresh i fuel (i + 1) st.surprised with
        | none => none
        | some surprised =>
          outerLoop32 dets area order thresh fuel (i + 1)
            ⟨surprised, Function.update st.keep st.out_size (floatOfIndex i), st.out_size + 1⟩
    else some st

/-- The function `NonMaximumSuppression` with binary32 arithmetic: the cells of
`dets` and `thresh` are taken to be binary32 values.  The result is the state of
the sweep at the return. -/
def NonMaximumSuppression32 (stdSort : (ℚ → ℚ → Bool) → List ℚ → List ℚ) (fuel : ℕ)
    (dets : Tensor2) (thresh : ℚ) (tempspace : Tensor2) (output : Tensor1) :
    Except String (Option SweepState) :=
  if dets.shape1 ≠ 5 then Except.error "dets: [x1, y1, x2, y2, score]"
  else if dets.shape0 ≠ tempspace.shape1 then Except.error "dets.shape_[0] == tempspace->shape_[1]"
  else if tempspace.shape0 ≠ 4 then Except.error "tempspace->shape_[0] == 4"
  else if ¬ (dets.shape0 > 0) then Except.error "dets.shape_[0] > 0"
  else if dets.CheckContiguous ≠ true then Except.error "dets.CheckContiguous()"
  else if tempspace.CheckContiguous ≠ true then Except.error "tempspace->CheckContiguous()"
  else
    Except.ok
      (outerLoop32 dets (areaRow32 dets tempspace) (orderRow stdSort dets tempspace) thresh fuel 0
        ⟨fun i => tempspace.dptr 3 i, output.dptr, 0⟩)

/-- The keep list and count of a binary32 run, when the run finished. -/
def keepAndCount32 (x : Except String (Option SweepState)) : Option (List ℕ × ℕ) :=
  match x with
  | Except.ok (some st) => some (st.keepList, st.out_size)
  | _ => none

end RcnnUtils

namespace RcnnUtils

/-! ### The loops as a sweep over the cursor path -/

theorem innerLoop_eq (dets : Tensor2) (area : ℕ → ℚ) (order : List ℚ) (thresh : ℚ) (i : ℕ) :
    ∀ (fuel j : ℕ) (s : ℕ → ℚ),
      innerLoop dets area order thresh i fuel j s =
        (cursorPath (fun c => castIdx (order.getD c 0)) dets.shape0 fuel j).map
          (fun p => p.foldl (suppStep dets area thresh i) s) := by
  intro fuel
  induction fuel with
  | zero => intro j s; rfl
  | succ fuel ih =>
    intro j s
    unfold innerLoop cursorPath
    by_cases hj : j < dets.shape0
    · simp only [hj, if_true, Option.map_map]
      by_cases hs : s (castIdx (order.getD j 0)) > 0
      · rw [if_pos hs, ih]
        congr 1
        funext p
        simp only [Function.comp, List.foldl_cons, suppStep, if_pos hs]
      · rw [if_neg hs, ih]
        congr 1
        funext p
        simp only [Function.comp, List.foldl_cons, suppStep, if_neg hs]
    · simp only [hj, if_false, Option.map_some', List.foldl_nil]

theorem outerLoop_eq (dets : Tensor2) (area : ℕ → ℚ) (order : List ℚ) (thresh : ℚ) :
    ∀ (fuel c : ℕ) (st : SweepState),
      outerLoop dets area order thresh fuel c st =
        (cursorPath (fun c => castIdx (order.getD c 0)) dets.shape0 fuel c).map
          (fun p => greedy dets area thresh p st) := by
  intro fuel
  induction fuel with
  | zero => intro c st; rfl
  | succ fuel ih =>
    intro c st
    unfold outerLoop cursorPath
    by_cases hc : c < dets.shape0
    · simp only [hc, if_true, Option.map_map]
      by_cases hs : st.surprised (castIdx (order.getD c 0)) > 0
      · rw [if_pos hs, ih]
        congr 1
        funext p
        simp only [Function.comp, greedy, if_pos hs]
      · rw [if_neg hs, innerLoop_eq]
        cases hp : cursorPath (fun c => castIdx (order.getD c 0)) dets.shape0 fuel
            (castIdx (order.getD c 0) + 1) with
        | none => rfl
        | some p =>
          simp only [Option.map_some']
          rw [ih, hp]
          simp only [Option.map_some', Function.comp, greedy, if_neg hs]
    · simp only [hc, if_false, Option.map_some', greedy]

/-! ### The sorted order row -/

theorem castIdx_natCast (k : ℕ) : castIdx (k : ℚ) = k := by
  simp [castIdx]

theorem insertionStdSort_spec : StdSortSpec insertionStdSort := by
  intro val l
  have htotal : IsTotal ℚ (fun a b => ReverseArgsortCompl val b a = false) := by
    refine ⟨fun a b => ?_⟩
    simp only [ReverseArgsortCompl, decide_eq_false_iff_not, not_lt]
    exact le_total _ _
  have htrans : IsTrans ℚ (fun a b => ReverseArgsortCompl val b a = false) := by
    refine ⟨fun a b c => ?_⟩
    simp only [ReverseArgsortCompl, decide_eq_false_iff_not, not_lt]
    exact fun h1 h2 => le_trans h2 h1
  exact ⟨List.perm_insertionSort _ l, List.sorted_insertionSort _ l⟩

theorem floatOfIndex_small (i : ℕ) (hi : i ≤ 2 ^ 24) : floatOfIndex i = (i : ℚ) := by
  unfold floatOfIndex
  rw [if_pos hi]

theorem castIdx_floatOfIndex (i : ℕ) (hi : i ≤ 2 ^ 24) : castIdx (floatOfIndex i) = i := by
  rw [floatOfIndex_small i hi, castIdx_natCast]

theorem floatOfIndex_range (n : ℕ) (hn : n ≤ 2 ^ 24 + 1) :
    List.map floatOfIndex (List.range n) = List.map (fun i : ℕ => (i : ℚ)) (List.range n) := by
  apply List.map_congr_left
  intro a ha
  exact floatOfIndex_small a (by have := List.mem_range.1 ha; omega)

theorem orderRow_ok (stdSort : (ℚ → ℚ → Bool) → List ℚ → List ℚ) (hs : StdSortSpec stdSort)
    (dets tempspace : Tensor2) (hn : dets.shape0 ≤ 2 ^ 24 + 1) :
    OrderOk (fun c => castIdx ((orderRow stdSort dets tempspace).getD c 0)) dets.shape0
      (scoreRow dets tempspace) := by
  obtain ⟨hperm, hsorted⟩ := hs (scoreRow dets tempspace)
    (List.map floatOfIndex (List.range dets.shape0))
  have hpermN : ((orderRow stdSort dets tempspace).map castIdx).Perm (List.range dets.shape0) := by
    have h := hperm.map castIdx
    have e : List.map castIdx (List.map floatOfIndex (List.range dets.shape0))
        = List.range dets.shape0 := by
      rw [floatOfIndex_range _ hn, List.map_map]
      conv_rhs => rw [← List.map_id (List.range dets.shape0)]
      apply List.map_congr_left
      intro a _
      simp [castIdx]
    rw [e] at h
    exact h
  have hsortedN : ((orderRow stdSort dets tempspace).map castIdx).Pairwise
      (fun a b => scoreRow dets tempspace b ≤ scoreRow dets tempspace a) := by
    rw [List.pairwise_map]
    refine hsorted.imp ?_
    intro a b hab
    simpa [ReverseArgsortCompl] using hab
  have hlen : ((orderRow stdSort dets tempspace).map castIdx).length = dets.shape0 := by
    rw [hpermN.length_eq, List.length_range]
  have hlen0 : (orderRow stdSort dets tempspace).length = dets.shape0 := by
    rw [← hlen, List.length_map]
  have hidx : ∀ c (hc : c < dets.shape0),
      castIdx ((orderRow stdSort dets tempspace).getD c 0)
        = ((orderRow stdSort dets tempspace).map castIdx)[c] := by
    intro c hc
    rw [List.getD_eq_getElem _ _ (by rw [hlen0]; exact hc), List.getElem_map]
  refine ⟨?_, ?_, ?_, ?_⟩
  · intro c hc
    show castIdx ((orderRow stdSort dets tempspace).getD c 0) < dets.shape0
    rw [hidx c hc]
    have hm : ((orderRow stdSort dets tempspace).map castIdx)[c] ∈
        (orderRow stdSort dets tempspace).map castIdx := List.getElem_mem _
    have := (hpermN.mem_iff).1 hm
    exact List.mem_range.1 this
  · intro c c' hc hc' h
    have h' : castIdx ((orderRow stdSort dets tempspace).getD c 0)
        = castIdx ((orderRow stdSort dets tempspace).getD c' 0) := h
    rw [hidx c hc, hidx c' hc'] at h'
    have hnd : ((orderRow stdSort dets tempspace).map castIdx).Nodup :=
      (hpermN.nodup_iff).2 (List.nodup_range _)
    exact (hnd.getElem_inj_iff).1 h'
  · intro i hi
    have hm : i ∈ (orderRow stdSort dets tempspace).map castIdx :=
      (hpermN.mem_iff).2 (List.mem_range.2 hi)
    obtain ⟨c, hc, hci⟩ := List.mem_iff_getElem.1 hm
    have hc' : c < dets.shape0 := by rw [← hlen]; exact hc
    refine ⟨c, hc', ?_⟩
    show castIdx ((orderRow stdSort dets tempspace).getD c 0) = i
    rw [hidx c hc']
    exact hci
  · intro c c' hcc hc'
    show scoreRow dets tempspace (castIdx ((orderRow stdSort dets tempspace).getD c' 0))
      ≤ scoreRow dets tempspace (castIdx ((orderRow stdSort dets tempspace).getD c 0))
    rw [hidx c (lt_trans hcc hc'), hidx c' hc']
    exact (List.pairwise_iff_getElem.1 hsortedN) c c' _ _ hcc

/-! ### Termination of the cursor walk -/

theorem cursorPath_isSome_aux (idx : ℕ → ℕ) (n : ℕ)
    (hinj : ∀ c c', c < n → c' < n → idx c = idx c' → c = c') :
    ∀ (fuel : ℕ) (S : Finset ℕ) (c : ℕ), (∀ x ∈ S, x < n) → c ∉ S →
      (∀ x ∈ insert c S, x = 0 ∨ ∃ y ∈ S, x = idx y + 1) → n + 1 ≤ fuel + S.card →
      ∃ p, cursorPath idx n fuel c = some p := by
  intro fuel
  induction fuel with
  | zero =>
    intro S c hS _ _ hcard
    exfalso
    have hsub : S ⊆ Finset.range n := fun x hx => Finset.mem_range.2 (hS x hx)
    have := Finset.card_le_card hsub
    rw [Finset.card_range] at this
    omega
  | succ fuel ih =>
    intro S c hS hc hchain hcard
    unfold cursorPath
    by_cases hcn : c < n
    · rw [if_pos hcn]
      have hS' : ∀ x ∈ insert c S, x < n := by
        intro x hx
        rcases Finset.mem_insert.1 hx with h | h
        · rw [h]; exact hcn
        · exact hS x h
      have hnew : idx c + 1 ∉ insert c S := by
        intro hmem
        rcases hchain _ hmem with h0 | ⟨y, hy, hyc⟩
        · omega
        · have : c = y := hinj c y hcn (hS y hy) (by omega)
          exact hc (this ▸ hy)
      have hchain' : ∀ x ∈ insert (idx c + 1) (insert c S),
          x = 0 ∨ ∃ y ∈ insert c S, x = idx y + 1 := by
        intro x hx
        rcases Finset.mem_insert.1 hx with h | h
        · exact Or.inr ⟨c, Finset.mem_insert_self c S, h⟩
        · rcases hchain x h with h0 | ⟨y, hy, hyc⟩
          · exact Or.inl h0
          · exact Or.inr ⟨y, Finset.mem_insert_of_mem hy, hyc⟩
      have hcard' : n + 1 ≤ fuel + (insert c S).card := by
        rw [Finset.card_insert_of_not_mem hc]
        omega
      obtain ⟨p, hp⟩ := ih (insert c S) (idx c + 1) hS' hnew hchain' hcard'
      exact ⟨idx c :: p, by rw [hp]; rfl⟩
    · rw [if_neg hcn]
      exact ⟨[], rfl⟩

theorem cursorPath_terminates (idx : ℕ → ℕ) (n : ℕ) (score : ℕ → ℚ) (hok : OrderOk idx n score)
    (fuel : ℕ) (hfuel : n + 1 ≤ fuel) : ∃ p, cursorPath idx n fuel 0 = some p := by
  refine cursorPath_isSome_aux idx n hok.inj fuel ∅ 0 ?_ ?_ ?_ ?_
  · intro x hx; simp at hx
  · simp
  · intro x hx
    simp only [Finset.mem_insert, Finset.not_mem_empty, or_false] at hx
    exact Or.inl hx
  · simpa using hfuel

theorem cursorPath_mem (idx : ℕ → ℕ) (n : ℕ) :
    ∀ (fuel c : ℕ) (p : List ℕ), cursorPath idx n fuel c = some p →
      ∀ x ∈ p, ∃ c', c' < n ∧ x = idx c' := by
  intro fuel
  induction fuel with
  | zero => intro c p h; simp [cursorPath] at h
  | succ fuel ih =>
    intro c p h x hx
    unfold cursorPath at h
    by_cases hcn : c < n
    · rw [if_pos hcn] at h
      cases hq : cursorPath idx n fuel (idx c + 1) with
      | none => rw [hq] at h; simp at h
      | some q =>
        rw [hq] at h
        simp only [Option.map_some', Option.some.injEq] at h
        subst h
        rcases List.mem_cons.1 hx with h1 | h1
        · exact ⟨c, hcn, h1⟩
        · exact ih _ q hq x h1
    · rw [if_neg hcn] at h
      simp only [Option.some.injEq] at h
      subst h
      simp at hx

theorem cursorPath_head (idx : ℕ → ℕ) (n fuel c : ℕ) (p : List ℕ)
    (h : cursorPath idx n fuel c = some p) (hc : c < n) :
    ∃ rest, p = idx c :: rest ∧ cursorPath idx n (fuel - 1) (idx c + 1) = some rest := by
  cases fuel with
  | zero => simp [cursorPath] at h
  | succ fuel =>
    unfold cursorPath at h
    rw [if_pos hc] at h
    cases hq : cursorPath idx n fuel (idx c + 1) with
    | none => rw [hq] at h; simp at h
    | some q =>
      rw [hq] at h
      simp only [Option.map_some', Option.some.injEq] at h
      exact ⟨q, h.symm, by simpa using hq⟩

theorem cursorPath_end (idx : ℕ → ℕ) (n fuel c : ℕ) (hc : ¬ c < n) :
    cursorPath idx n (fuel + 1) c = some [] := by
  unfold cursorPath
  rw [if_neg hc]

theorem cursorPath_nodup_aux (idx : ℕ → ℕ) (n : ℕ)
    (hinj : ∀ c c', c < n → c' < n → idx c = idx c' → c = c') :
    ∀ (fuel : ℕ) (S : Finset ℕ) (c : ℕ) (p : List ℕ), (∀ x ∈ S, x < n) → c ∉ S →
      (∀ x ∈ insert c S, x = 0 ∨ ∃ y ∈ S, x = idx y + 1) →
      cursorPath idx n fuel c = some p →
      p.Nodup ∧ ∀ x ∈ p, ∃ c', c' < n ∧ c' ∉ S ∧ x = idx c' := by
  intro fuel
  induction fuel with
  | zero => intro S c p _ _ _ h; simp [cursorPath] at h
  | succ fuel ih =>
    intro S c p hS hc hchain h
    unfold cursorPath at h
    by_cases hcn : c < n
    · rw [if_pos hcn] at h
      cases hq : cursorPath idx n fuel (idx c + 1) with
      | none => rw [hq] at h; simp at h
      | some q =>
        rw [hq] at h
        simp only [Option.map_some', Option.some.injEq] at h
        subst h
        have hS' : ∀ x ∈ insert c S, x < n := by
          intro x hx
          rcases Finset.mem_insert.1 hx with h | h
          · rw [h]; exact hcn
          · exact hS x h
        have hnew : idx c + 1 ∉ insert c S := by
          intro hmem
          rcases hchain _ hmem with h0 | ⟨y, hy, hyc⟩
          · omega
          · have : c = y := hinj c y hcn (hS y hy) (by omega)
            exact hc (this ▸ hy)
        have hchain' : ∀ x ∈ insert (idx c + 1) (insert c S),
            x = 0 ∨ ∃ y ∈ insert c S, x = idx y + 1 := by
          intro x hx
          rcases Finset.mem_insert.1 hx with h | h
          · exact Or.inr ⟨c, Finset.mem_insert_self c S, h⟩
          · rcases hchain x h with h0 | ⟨y, hy, hyc⟩
            · exact Or.inl h0
            · exact Or.inr ⟨y, Finset.mem_insert_of_mem hy, hyc⟩
        obtain ⟨hnd, hmem⟩ := ih (insert c S) (idx c + 1) q hS' hnew hchain' hq
        constructor
        · refine List.nodup_cons.2 ⟨?_, hnd⟩
          intro hin
          obtain ⟨c', hc', hc'S, hxc⟩ := hmem _ hin
          have := hinj c c' hcn hc' hxc
          exact hc'S (this ▸ Finset.mem_insert_self c S)
        · intro x hx
          rcases List.mem_cons.1 hx with h | h
          · exact ⟨c, hcn, hc, h⟩
          · obtain ⟨c', hc', hc'S, hxc⟩ := hmem x h
            exact ⟨c', hc', fun hin => hc'S (Finset.mem_insert_of_mem hin), hxc⟩
    · rw [if_neg hcn] at h
      simp only [Option.some.injEq] at h
      subst h
      exact ⟨List.nodup_nil, fun x hx => by simp at hx⟩

theorem cursorPath_nodup (idx : ℕ → ℕ) (n : ℕ)
    (hinj : ∀ c c', c < n → c' < n → idx c = idx c' → c = c') (fuel : ℕ) (p : List ℕ)
    (h : cursorPath idx n fuel 0 = some p) : p.Nodup := by
  refine (cursorPath_nodup_aux idx n hinj fuel ∅ 0 p ?_ ?_ ?_ h).1
  · intro x hx; simp at hx
  · simp
  · intro x hx
    simp only [Finset.mem_insert, Finset.not_mem_empty, or_false] at hx
    exact Or.inl hx

/-! ### The keep buffer as a list -/

theorem keepList_push (st : SweepState) (s : ℕ → ℚ) (i : ℕ) (hi : i ≤ 2 ^ 24) :
    SweepState.keepList ⟨s, Function.update st.keep st.out_size (floatOfIndex i),
        st.out_size + 1⟩
      = st.keepList ++ [i] := by
  unfold SweepState.keepList
  simp only [List.range_succ, List.map_append, List.map_cons, List.map_nil,
    Function.update_same, castIdx_floatOfIndex i hi]
  congr 1
  apply List.map_congr_left
  intro k hk
  have : k ≠ st.out_size := ne_of_lt (List.mem_range.1 hk)
  rw [Function.update_noteq this]

theorem greedy_keepList (dets : Tensor2) (area : ℕ → ℚ) (thresh : ℚ) :
    ∀ (p : List ℕ) (st : SweepState), (∀ x ∈ p, x ≤ 2 ^ 24) →
      (greedy dets area thresh p st).keepList
        = st.keepList ++ greedyKeep dets area thresh p st.surprised := by
  intro p
  induction p with
  | nil => intro st _; simp [greedy, greedyKeep]
  | cons i rest ih =>
    intro st hp
    have hrest : ∀ x ∈ rest, x ≤ 2 ^ 24 := fun x hx => hp x (List.mem_cons_of_mem i hx)
    unfold greedy greedyKeep
    by_cases hs : st.surprised i > 0
    · rw [if_pos hs, if_pos hs, ih st hrest]
    · rw [if_neg hs, if_neg hs, ih _ hrest, keepList_push st _ i (hp i (List.mem_cons_self i rest))]
      simp

theorem keepList_length (st : SweepState) : st.keepList.length = st.out_size := by
  simp [SweepState.keepList]

/-- A run on which the checks pass and whose sort meets its contract finishes,
and its keep list is the sweep over the cursor path from cursor `0`. -/
theorem nms_run (stdSort : (ℚ → ℚ → Bool) → List ℚ → List ℚ) (hs : StdSortSpec stdSort)
    (fuel : ℕ) (dets : Tensor2) (thresh : ℚ) (tempspace : Tensor2) (output : Tensor1)
    (hchk : ChecksPass dets tempspace) (hn : dets.shape0 ≤ 2 ^ 24 + 1)
    (hfuel : dets.shape0 + 1 ≤ fuel) :
    ∃ p r,
      cursorPath (fun c => castIdx ((orderRow stdSort dets tempspace).getD c 0))
        dets.shape0 fuel 0 = some p ∧
      NonMaximumSuppression stdSort fuel dets thresh tempspace output = Except.ok (some r) ∧
      r.keepList = greedyKeep dets (areaRow dets tempspace) thresh p
        (fun i => tempspace.dptr 3 i) ∧
      r.out_size = r.keepList.length ∧
      r.score = scoreRow dets tempspace ∧ r.area = areaRow dets tempspace ∧
      r.order = orderRow stdSort dets tempspace := by
  obtain ⟨h1, h2, h3, h4, h5, h6⟩ := hchk
  have hok := orderRow_ok stdSort hs dets tempspace hn
  obtain ⟨p, hp⟩ := cursorPath_terminates _ _ _ hok fuel hfuel
  have hsmall : ∀ x ∈ p, x ≤ 2 ^ 24 := by
    intro x hx
    obtain ⟨c, hc, hxc⟩ := cursorPath_mem _ _ _ _ _ hp x hx
    have := hok.lt c hc
    rw [hxc]
    omega
  refine ⟨p, ⟨scoreRow dets tempspace, areaRow dets tempspace, orderRow stdSort dets tempspace,
    (greedy dets (areaRow dets tempspace) thresh p
      ⟨fun i => tempspace.dptr 3 i, output.dptr, 0⟩).surprised,
    (greedy dets (areaRow dets tempspace) thresh p
      ⟨fun i => tempspace.dptr 3 i, output.dptr, 0⟩).keep,
    (greedy dets (areaRow dets tempspace) thresh p
      ⟨fun i => tempspace.dptr 3 i, output.dptr, 0⟩).out_size⟩, hp, ?_, ?_, ?_, rfl, rfl, rfl⟩
  · unfold NonMaximumSuppression
    simp only [h1, h3, h4, h5, h6, ← h2, ne_eq, not_true_eq_false, if_false, gt_iff_lt,
      not_lt, not_le, outerLoop_eq, hp, Option.map_some']
  · have := greedy_keepList dets (areaRow dets tempspace) thresh p
      ⟨fun i => tempspace.dptr 3 i, output.dptr, 0⟩ hsmall
    simpa [SweepState.keepList, NmsResult.keepList] using this
  · simp [NmsResult.keepList]

/-! ### The first kept candidate -/

theorem greedyKeep_head (dets : Tensor2) (area : ℕ → ℚ) (thresh : ℚ) (i : ℕ) (rest : List ℕ)
    (s : ℕ → ℚ) (hs : s i = 0) :
    greedyKeep dets area thresh (i :: rest) s
      = i :: greedyKeep dets area thresh rest (rest.foldl (suppStep dets area thresh i) s) := by
  rw [greedyKeep, if_neg (by rw [hs]; exact lt_irrefl 0)]

theorem keepList_zero (r : NmsResult) (i : ℕ) (tl : List ℕ) (h : r.keepList = i :: tl) :
    castIdx (r.keep 0) = i := by
  unfold NmsResult.keepList at h
  cases hn : r.out_size with
  | zero => rw [hn] at h; simp at h
  | succ m =>
    rw [hn, List.range_succ_eq_map] at h
    simp only [List.map_cons, List.cons.injEq] at h
    exact h.1

/-- Claim C10, as amended.  On every input of at most `2 ^ 24 + 1` rows that passes
the checks, with an all-zero `surprised` row, whatever the threshold and whatever
order `std::sort` picks among equal scores, the run finishes with `count >= 1`,
`keep[0]` is a row of maximal score, and for a single candidate the keep list is
`[0]` and the count is `1`. -/
theorem C10_first_kept_has_maximal_score
    (stdSort : (ℚ → ℚ → Bool) → List ℚ → List ℚ) (hs : StdSortSpec stdSort)
    (fuel : ℕ) (dets : Tensor2) (thresh : ℚ) (tempspace : Tensor2) (output : Tensor1)
    (hchk : ChecksPass dets tempspace) (hzero : ZeroSurprised dets tempspace)
    (hn : dets.shape0 ≤ 2 ^ 24 + 1) (hfuel : dets.shape0 + 1 ≤ fuel) :
    ∃ r, NonMaximumSuppression stdSort fuel dets thresh tempspace output = Except.ok (some r) ∧
      1 ≤ r.out_size ∧ castIdx (r.keep 0) < dets.shape0 ∧
      (∀ j, j < dets.shape0 → dets.dptr j 4 ≤ dets.dptr (castIdx (r.keep 0)) 4) ∧
      (dets.shape0 = 1 → r.keepList = [0] ∧ r.out_size = 1) := by
  obtain ⟨p, r, hp, hr, hkeep, hsize, -, -⟩ :=
    nms_run stdSort hs fuel dets thresh tempspace output hchk hn hfuel
  have hok := orderRow_ok stdSort hs dets tempspace hn
  have hpos0 : 0 < dets.shape0 := hchk.2.2.2.1
  obtain ⟨rest, hrest, hrestp⟩ := cursorPath_head _ _ _ _ _ hp hpos0
  have hlt0 : castIdx ((orderRow stdSort dets tempspace).getD 0 0) < dets.shape0 :=
    hok.lt 0 hpos0
  rw [hrest, greedyKeep_head _ _ _ _ _ _ (hzero _ hlt0)] at hkeep
  have hk0 := keepList_zero r _ _ hkeep
  refine ⟨r, hr, ?_, ?_, ?_, ?_⟩
  · rw [hsize, hkeep]; simp
  · rw [hk0]; exact hlt0
  · intro j hj
    rw [hk0]
    obtain ⟨c, hc, hcj⟩ := hok.surj j hj
    have hsc : scoreRow dets tempspace j ≤ scoreRow dets tempspace
        (castIdx ((orderRow stdSort dets tempspace).getD 0 0)) := by
      rw [← hcj]
      rcases Nat.eq_zero_or_pos c with h0 | hpos
      · rw [h0]
      · exact hok.sorted 0 c hpos hc
    unfold scoreRow at hsc
    rw [if_pos hj, if_pos hlt0] at hsc
    exact hsc
  · intro h1
    have hi0 : castIdx ((orderRow stdSort dets tempspace).getD 0 0) = 0 := by
      omega
    have hrest0 : rest = [] := by
      have hf : fuel - 1 = (fuel - 2) + 1 := by omega
      rw [hf, cursorPath_end _ _ _ _ (by simp only [hi0]; omega)] at hrestp
      exact (Option.some.inj hrestp).symm
    rw [hrest0] at hkeep
    simp only [hi0, greedyKeep] at hkeep
    exact ⟨hkeep, by rw [hsize, hkeep]; rfl⟩

theorem C10_witness :
    ∃ r, NonMaximumSuppression insertionStdSort 2 (Tensor2.ofRows [[0, 0, 9, 9, 1 / 2]] 5) (3 / 10)
        (zeroTempspace 1) (zeroOutput 1) = Except.ok (some r) ∧
      1 ≤ r.out_size ∧ castIdx (r.keep 0) < (Tensor2.ofRows [[0, 0, 9, 9, 1 / 2]] 5).shape0 ∧
      (∀ j, j < (Tensor2.ofRows [[0, 0, 9, 9, 1 / 2]] 5).shape0 →
        (Tensor2.ofRows [[0, 0, 9, 9, 1 / 2]] 5).dptr j 4
          ≤ (Tensor2.ofRows [[0, 0, 9, 9, 1 / 2]] 5).dptr (castIdx (r.keep 0)) 4) ∧
      ((Tensor2.ofRows [[0, 0, 9, 9, 1 / 2]] 5).shape0 = 1 → r.keepList = [0] ∧ r.out_size = 1) :=
  C10_first_kept_has_maximal_score insertionStdSort insertionStdSort_spec 2
    (Tensor2.ofRows [[0, 0, 9, 9, 1 / 2]] 5) (3 / 10) (zeroTempspace 1) (zeroOutput 1)
    ⟨rfl, rfl, rfl, by decide, rfl, rfl⟩ (fun _ _ => rfl) (by decide) (by decide)

/-! ### Kept candidates do not overlap beyond the threshold -/

theorem suppStep_mono (dets : Tensor2) (area : ℕ → ℚ) (thresh : ℚ) (i j x : ℕ) (s : ℕ → ℚ)
    (h : s x > 0) : suppStep dets area thresh i s j x > 0 := by
  unfold suppStep
  split
  · exact h
  · split
    · by_cases hx : x = j
      · rw [hx, Function.update_same]; exact zero_lt_one
      · rw [Function.update_noteq hx]; exact h
    · exact h

theorem foldl_suppStep_mono (dets : Tensor2) (area : ℕ → ℚ) (thresh : ℚ) (i x : ℕ) :
    ∀ (rest : List ℕ) (s : ℕ → ℚ), s x > 0 →
      rest.foldl (suppStep dets area thresh i) s x > 0 := by
  intro rest
  induction rest with
  | nil => intro s h; exact h
  | cons j tl ih =>
    intro s h
    rw [List.foldl_cons]
    exact ih _ (suppStep_mono dets area thresh i j x s h)

theorem greedyKeep_sublist (dets : Tensor2) (area : ℕ → ℚ) (thresh : ℚ) :
    ∀ (p : List ℕ) (s : ℕ → ℚ), (greedyKeep dets area thresh p s).Sublist p := by
  intro p
  induction p with
  | nil => intro s; simp [greedyKeep]
  | cons i rest ih =>
    intro s
    rw [greedyKeep]
    split
    · exact (ih s).cons i
    · exact (ih _).cons₂ i

theorem suppStep_apply (dets : Tensor2) (area : ℕ → ℚ) (thresh : ℚ) (i j x : ℕ) (s : ℕ → ℚ) :
    suppStep dets area thresh i s j x
      = if x = j then
          (if s x > 0 then s x else if ovrExceeds dets area thresh i j then 1 else s x)
        else s x := by
  unfold suppStep
  by_cases hx : x = j
  · subst hx
    rw [if_pos rfl]
    by_cases h1 : s x > 0
    · rw [if_pos h1, if_pos h1]
    · rw [if_neg h1, if_neg h1]
      by_cases h2 : ovrExceeds dets area thresh i x = true
      · rw [if_pos h2, if_pos h2, Function.update_same]
      · rw [if_neg h2, if_neg h2]
  · rw [if_neg hx]
    by_cases h1 : s j > 0
    · rw [if_pos h1]
    · rw [if_neg h1]
      by_cases h2 : ovrExceeds dets area thresh i j = true
      · rw [if_pos h2, Function.update_noteq hx]
      · rw [if_neg h2]

theorem foldl_suppStep_congr (dets : Tensor2) (area : ℕ → ℚ) (thresh : ℚ) (i x : ℕ) :
    ∀ (rest : List ℕ) (s s' : ℕ → ℚ), s x = s' x →
      rest.foldl (suppStep dets area thresh i) s x
        = rest.foldl (suppStep dets area thresh i) s' x := by
  intro rest
  induction rest with
  | nil => intro s s' h; exact h
  | cons j tl ih =>
    intro s s' h
    rw [List.foldl_cons, List.foldl_cons]
    apply ih
    rw [suppStep_apply, suppStep_apply, h]

theorem greedyKeep_congr (dets : Tensor2) (area : ℕ → ℚ) (thresh : ℚ) :
    ∀ (p : List ℕ) (s s' : ℕ → ℚ), (∀ x ∈ p, s x = s' x) →
      greedyKeep dets area thresh p s = greedyKeep dets area thresh p s' := by
  intro p
  induction p with
  | nil => intro s s' _; rfl
  | cons i rest ih =>
    intro s s' h
    rw [greedyKeep, greedyKeep, ← h i (List.mem_cons_self i rest)]
    have hrest : greedyKeep dets area thresh rest s = greedyKeep dets area thresh rest s' :=
      ih s s' (fun x hx => h x (List.mem_cons_of_mem i hx))
    have hfold : greedyKeep dets area thresh rest (rest.foldl (suppStep dets area thresh i) s)
        = greedyKeep dets area thresh rest (rest.foldl (suppStep dets area thresh i) s') :=
      ih _ _ (fun x hx => foldl_suppStep_congr dets area thresh i x rest s s'
        (h x (List.mem_cons_of_mem i hx)))
    rw [hrest, hfold]

theorem foldl_suppStep_flags (dets : Tensor2) (area : ℕ → ℚ) (thresh : ℚ) (i : ℕ) :
    ∀ (rest : List ℕ) (s : ℕ → ℚ),
      (fun k => decide (rest.foldl (suppStep dets area thresh i) s k > 0))
        = rest.foldl (fun sup j =>
            if !sup j && ovrExceeds dets area thresh i j then Function.update sup j true
            else sup) (fun k => decide (s k > 0)) := by
  intro rest
  induction rest with
  | nil => intro s; rfl
  | cons j tl ih =>
    intro s
    rw [List.foldl_cons, List.foldl_cons, ih]
    congr 1
    funext k
    rw [suppStep_apply]
    by_cases h1 : s j > 0
    · simp only [h1, decide_True, Bool.not_true, Bool.false_and, Bool.false_eq_true, if_false]
      by_cases hk : k = j
      · rw [if_pos hk, hk, if_pos h1]
      · rw [if_neg hk]
    · by_cases h2 : ovrExceeds dets area thresh i j = true
      · simp only [h1, h2, decide_False, Bool.not_false, Bool.and_self, if_true]
        by_cases hk : k = j
        · rw [if_pos hk, hk, if_neg h1, Function.update_same]
          exact decide_eq_true zero_lt_one
        · rw [if_neg hk, Function.update_noteq hk]
      · have h2' : ovrExceeds dets area thresh i j = false := by simpa using h2
        simp only [h1, h2', decide_False, Bool.not_false, Bool.and_false, Bool.false_eq_true,
          if_false]
        by_cases hk : k = j
        · rw [if_pos hk, hk, if_neg h1]
        · rw [if_neg hk]

theorem greedyKeep_eq_referenceSweep (dets : Tensor2) (area : ℕ → ℚ) (thresh : ℚ) :
    ∀ (p : List ℕ) (s : ℕ → ℚ),
      greedyKeep dets area thresh p s
        = referenceSweepBy (ovrExceeds dets area thresh) p (fun k => decide (s k > 0)) := by
  intro p
  induction p with
  | nil => intro s; rfl
  | cons i rest ih =>
    intro s
    rw [greedyKeep, referenceSweepBy]
    by_cases h1 : s i > 0
    · rw [if_pos h1, if_pos (decide_eq_true h1), ih]
    · rw [if_neg h1, if_neg (by simpa using h1), ih, foldl_suppStep_flags]

theorem greedyKeep_zero_eq_referenceSweep (dets : Tensor2) (area : ℕ → ℚ) (thresh : ℚ)
    (p : List ℕ) (s : ℕ → ℚ) (hs : ∀ x ∈ p, s x = 0) :
    greedyKeep dets area thresh p s
      = referenceSweepBy (ovrExceeds dets area thresh) p (fun _ => false) := by
  rw [greedyKeep_congr dets area thresh p s (fun _ => 0) hs, greedyKeep_eq_referenceSweep]
  have e : (fun _ : ℕ => decide ((0 : ℚ) > 0)) = fun _ => false := by
    funext k
    exact decide_eq_false (lt_irrefl 0)
  rw [e]

theorem referenceSweepBy_congr (e e' : ℕ → ℕ → Bool) :
    ∀ (l : List ℕ) (s : ℕ → Bool), (∀ i ∈ l, ∀ j ∈ l, e i j = e' i j) →
      referenceSweepBy e l s = referenceSweepBy e' l s := by
  intro l
  induction l with
  | nil => intro s _; rfl
  | cons i later ih =>
    intro s h
    have hl : ∀ a ∈ later, ∀ b ∈ later, e a b = e' a b := fun a ha b hb =>
      h a (List.mem_cons_of_mem _ ha) b (List.mem_cons_of_mem _ hb)
    have hf : later.foldl (fun sup j =>
          if !sup j && e i j then Function.update sup j true else sup) s
        = later.foldl (fun sup j =>
          if !sup j && e' i j then Function.update sup j true else sup) s := by
      apply List.foldl_ext
      intro sup j hj
      rw [h i (List.mem_cons_self _ _) j (List.mem_cons_of_mem _ hj)]
    rw [referenceSweepBy, referenceSweepBy, ih s hl, hf, ih _ hl]

theorem referenceSweepBy_decide (overlap : ℕ → ℕ → ℚ) (threshold : ℚ) :
    ∀ (l : List ℕ) (s : ℕ → Bool),
      referenceSweepBy (fun i j => decide (overlap i j > threshold)) l s
        = referenceSweep overlap threshold l s := by
  intro l
  induction l with
  | nil => intro s; rfl
  | cons i later ih =>
    intro s
    rw [referenceSweepBy, referenceSweep, ih, ih]

/-! ### Rows already in descending score order -/

theorem orderRow_length (stdSort : (ℚ → ℚ → Bool) → List ℚ → List ℚ) (hs : StdSortSpec stdSort)
    (dets tempspace : Tensor2) : (orderRow stdSort dets tempspace).length = dets.shape0 := by
  have h := (hs (scoreRow dets tempspace)
    (List.map floatOfIndex (List.range dets.shape0))).1.length_eq
  rw [List.length_map, List.length_range] at h
  exact h

theorem order_identity (idx : ℕ → ℕ) (n : ℕ) (score : ℕ → ℚ) (hok : OrderOk idx n score)
    (hdesc : ∀ i j, i < j → j < n → score j < score i) :
    ∀ c, c < n → idx c = c := by
  have hmono : ∀ c c', c < c' → c' < n → idx c < idx c' := by
    intro c c' hcc hc'
    have hc : c < n := lt_trans hcc hc'
    by_contra hnot
    have hle : idx c' ≤ idx c := not_lt.1 hnot
    rcases Nat.lt_or_eq_of_le hle with hlt | heq
    · have h1 := hdesc (idx c') (idx c) hlt (hok.lt c hc)
      have h2 := hok.sorted c c' hcc hc'
      exact absurd h1 (not_lt.2 h2)
    · have := hok.inj c' c hc' hc heq
      omega
  intro c
  induction c using Nat.strong_induction_on with
  | _ c ih =>
    intro hc
    have hge : c ≤ idx c := by
      by_contra hnot
      have hlt : idx c < c := not_le.1 hnot
      have h1 := ih (idx c) hlt (lt_trans hlt hc)
      have h2 := hok.inj (idx c) c (lt_trans hlt hc) hc h1
      omega
    obtain ⟨c2, hc2, hc2c⟩ := hok.surj c hc
    rcases Nat.lt_trichotomy c2 c with h | h | h
    · have := ih c2 h hc2
      omega
    · rw [h] at hc2c; exact hc2c
    · have := hmono c c2 h hc2
      omega

theorem cursorPath_identity (idx : ℕ → ℕ) (n : ℕ) (hid : ∀ c, c < n → idx c = c) :
    ∀ (fuel c : ℕ), n - c < fuel → cursorPath idx n fuel c = some (List.range' c (n - c)) := by
  intro fuel
  induction fuel with
  | zero => intro c h; omega
  | succ fuel ih =>
    intro c h
    unfold cursorPath
    by_cases hc : c < n
    · rw [if_pos hc, hid c hc, ih (c + 1) (by omega)]
      have e : n - c = (n - (c + 1)) + 1 := by omega
      rw [e, List.range'_succ]
      rfl
    · rw [if_neg hc]
      have e : n - c = 0 := by omega
      rw [e]
      rfl

/-- Claim C2, as amended.  When the scores strictly decrease with the row index,
on every input of at most `2 ^ 24 + 1` rows that passes the checks with an
all-zero `surprised` row and for every threshold, the run finishes, the sorted
order row is `0, 1, ..., n - 1`, and the keep list and the count are those of
the reference greedy sweep over that order with the test `ovr > thresh` of the
sweep; when no denominator of `ovr` is zero, that is the reference sweep with
the overlap `ovr`. -/
theorem C2_descending_rows_match_reference
    (stdSort : (ℚ → ℚ → Bool) → List ℚ → List ℚ) (hs : StdSortSpec stdSort)
    (fuel : ℕ) (dets : Tensor2) (thresh : ℚ) (tempspace : Tensor2) (output : Tensor1)
    (hchk : ChecksPass dets tempspace) (hzero : ZeroSurprised dets tempspace)
    (hdesc : ∀ i j, i < j → j < dets.shape0 → dets.dptr j 4 < dets.dptr i 4)
    (hn : dets.shape0 ≤ 2 ^ 24 + 1) (hfuel : dets.shape0 + 1 ≤ fuel) :
    ∃ r, NonMaximumSuppression stdSort fuel dets thresh tempspace output = Except.ok (some r) ∧
      r.order.map castIdx = List.range dets.shape0 ∧
      r.keepList
        = referenceSweepBy (ovrExceeds dets r.area thresh) (r.order.map castIdx)
            (fun _ => false) ∧
      r.out_size
        = (referenceSweepBy (ovrExceeds dets r.area thresh) (r.order.map castIdx)
            (fun _ => false)).length ∧
      ((∀ i j, i < dets.shape0 → j < dets.shape0 →
          r.area i + r.area j - interArea dets i j ≠ 0) →
        r.keepList
          = referenceSweep (ovr dets r.area) thresh (r.order.map castIdx) (fun _ => false)) := by
  obtain ⟨p, r, hp, hr, hkeep, hsize, -, harea, horder⟩ :=
    nms_run stdSort hs fuel dets thresh tempspace output hchk hn hfuel
  have hok := orderRow_ok stdSort hs dets tempspace hn
  have hdesc' : ∀ i j, i < j → j < dets.shape0 →
      scoreRow dets tempspace j < scoreRow dets tempspace i := by
    intro i j hij hj
    unfold scoreRow
    rw [if_pos hj, if_pos (lt_trans hij hj)]
    exact hdesc i j hij hj
  have hid := order_identity _ _ _ hok hdesc'
  have hlen := orderRow_length stdSort hs dets tempspace
  have hord : (orderRow stdSort dets tempspace).map castIdx = List.range dets.shape0 := by
    apply List.ext_getElem
    · rw [List.length_map, hlen, List.length_range]
    · intro c h1 h2
      rw [List.getElem_map, List.getElem_range]
      have hc : c < dets.shape0 := by simpa using h2
      have := hid c hc
      simp only at this
      rw [List.getD_eq_getElem _ _ (by rw [hlen]; exact hc)] at this
      exact this
  have hpath := cursorPath_identity _ _ hid fuel 0 (by omega)
  rw [hp] at hpath
  have hp' : p = List.range dets.shape0 := by
    rw [Option.some.inj hpath, List.range_eq_range']
    rfl
  have hk : r.keepList
      = referenceSweepBy (ovrExceeds dets r.area thresh) (r.order.map castIdx)
          (fun _ => false) := by
    rw [hkeep, harea, horder, hord, hp']
    apply greedyKeep_zero_eq_referenceSweep
    intro x hx
    exact hzero x (List.mem_range.1 hx)
  refine ⟨r, hr, by rw [horder, hord], hk, by rw [hsize, hk], ?_⟩
  intro hden
  rw [hk, ← referenceSweepBy_decide]
  apply referenceSweepBy_congr
  intro i hi j hj
  rw [horder, hord] at hi hj
  unfold ovrExceeds
  rw [if_neg (hden i j (List.mem_range.1 hi) (List.mem_range.1 hj))]

/-! ### The count under two thresholds -/

theorem foldl_suppStep_id (dets : Tensor2) (area : ℕ → ℚ) (thresh : ℚ) (i : ℕ) :
    ∀ (rest : List ℕ) (s : ℕ → ℚ), (∀ j ∈ rest, ovrExceeds dets area thresh i j = false) →
      rest.foldl (suppStep dets area thresh i) s = s := by
  intro rest
  induction rest with
  | nil => intro s _; rfl
  | cons j tl ih =>
    intro s h
    have hstep : suppStep dets area thresh i s j = s := by
      unfold suppStep
      rw [h j (List.mem_cons_self j tl)]
      simp
    rw [List.foldl_cons, hstep]
    exact ih s (fun k hk => h k (List.mem_cons_of_mem j hk))

theorem greedyKeep_length_le (dets : Tensor2) (area : ℕ → ℚ) (t1 t2 : ℚ) :
    ∀ (p : List ℕ) (s s' : ℕ → ℚ), p.Nodup →
      (∀ i ∈ p, ∀ j ∈ p, i ≠ j → ovrExceeds dets area t2 i j = false) →
      (∀ x, s x > 0 → s' x > 0) →
      (greedyKeep dets area t1 p s').length ≤ (greedyKeep dets area t2 p s).length := by
  intro p
  induction p with
  | nil => intro s s' _ _ _; simp [greedyKeep]
  | cons i rest ih =>
    intro s s' hnd hdom hle
    obtain ⟨hi, hnd'⟩ := List.nodup_cons.1 hnd
    have hdom' : ∀ a ∈ rest, ∀ b ∈ rest, a ≠ b → ovrExceeds dets area t2 a b = false :=
      fun a ha b hb => hdom a (List.mem_cons_of_mem i ha) b (List.mem_cons_of_mem i hb)
    have hid : rest.foldl (suppStep dets area t2 i) s = s :=
      foldl_suppStep_id dets area t2 i rest s
        (fun j hj => hdom i (List.mem_cons_self i rest) j (List.mem_cons_of_mem i hj)
          (fun e => hi (e ▸ hj)))
    rw [greedyKeep, greedyKeep]
    by_cases h' : s' i > 0
    · rw [if_pos h']
      by_cases h : s i > 0
      · rw [if_pos h]
        exact ih s s' hnd' hdom' hle
      · rw [if_neg h, hid, List.length_cons]
        exact Nat.le_succ_of_le (ih s s' hnd' hdom' hle)
    · have h : ¬ s i > 0 := fun hs => h' (hle i hs)
      rw [if_neg h', if_neg h, hid, List.length_cons, List.length_cons]
      apply Nat.succ_le_succ
      apply ih s _ hnd' hdom'
      intro x hx
      exact foldl_suppStep_mono dets area t1 i x rest s' (hle x hx)

/-- Claim C8, as amended.  On every input of at most `2 ^ 24 + 1` rows that passes
the checks, for two thresholds `t1` and `t2` such that the test `ovr > t2` of the
sweep fails for every pair of distinct candidates (`t2` is at least the overlap
of any two distinct candidates), both runs finish and the count at `t1` is at
most the count at `t2`. -/
theorem C8_count_le_under_dominating_threshold
    (stdSort : (ℚ → ℚ → Bool) → List ℚ → List ℚ) (hs : StdSortSpec stdSort)
    (fuel : ℕ) (dets : Tensor2) (t1 t2 : ℚ) (tempspace : Tensor2) (output : Tensor1)
    (hchk : ChecksPass dets tempspace)
    (hdom : ∀ i j, i < dets.shape0 → j < dets.shape0 → i ≠ j →
      ovrExceeds dets (areaRow dets tempspace) t2 i j = false)
    (hn : dets.shape0 ≤ 2 ^ 24 + 1) (hfuel : dets.shape0 + 1 ≤ fuel) :
    ∃ r1 r2,
      NonMaximumSuppression stdSort fuel dets t1 tempspace output = Except.ok (some r1) ∧
      NonMaximumSuppression stdSort fuel dets t2 tempspace output = Except.ok (some r2) ∧
      r1.out_size ≤ r2.out_size := by
  obtain ⟨p1, r1, hp1, hr1, hkeep1, hsize1, -⟩ :=
    nms_run stdSort hs fuel dets t1 tempspace output hchk hn hfuel
  obtain ⟨p2, r2, hp2, hr2, hkeep2, hsize2, -⟩ :=
    nms_run stdSort hs fuel dets t2 tempspace output hchk hn hfuel
  have hpp : p1 = p2 := Option.some.inj (hp1.symm.trans hp2)
  subst hpp
  have hok := orderRow_ok stdSort hs dets tempspace hn
  have hmem : ∀ x ∈ p1, x < dets.shape0 := by
    intro x hx
    obtain ⟨c, hc, hxc⟩ := cursorPath_mem _ _ _ _ _ hp1 x hx
    rw [hxc]
    exact hok.lt c hc
  have hnd := cursorPath_nodup _ _ hok.inj fuel p1 hp1
  refine ⟨r1, r2, hr1, hr2, ?_⟩
  rw [hsize1, hsize2, hkeep1, hkeep2]
  exact greedyKeep_length_le dets (areaRow dets tempspace) t1 t2 p1 _ _ hnd
    (fun i hi j hj hij => hdom i j (hmem i hi) (hmem j hj) hij) (fun _ h => h)

/-! ### Runs on concrete inputs -/

theorem C2_witness :
    (∃ r, NonMaximumSuppression insertionStdSort 4 scenarioDets (1 / 2) (zeroTempspace 3)
        (zeroOutput 3) = Except.ok (some r) ∧
      r.order.map castIdx = List.range scenarioDets.shape0 ∧
      r.keepList
        = referenceSweepBy (ovrExceeds scenarioDets r.area (1 / 2)) (r.order.map castIdx)
            (fun _ => false) ∧
      r.out_size
        = (referenceSweepBy (ovrExceeds scenarioDets r.area (1 / 2)) (r.order.map castIdx)
            (fun _ => false)).length ∧
      ((∀ i j, i < scenarioDets.shape0 → j < scenarioDets.shape0 →
          r.area i + r.area j - interArea scenarioDets i j ≠ 0) →
        r.keepList
          = referenceSweep (ovr scenarioDets r.area) (1 / 2) (r.order.map castIdx)
              (fun _ => false))) ∧
    keepAndCount (NonMaximumSuppression insertionStdSort 4 scenarioDets (1 / 2)
      (zeroTempspace 3) (zeroOutput 3)) = some ([0, 2], 2) :=
  ⟨C2_descending_rows_match_reference insertionStdSort insertionStdSort_spec 4 scenarioDets
      (1 / 2) (zeroTempspace 3) (zeroOutput 3) ⟨rfl, rfl, rfl, by decide, rfl, rfl⟩
      (fun _ _ => rfl)
      (by
        intro i j hij hj
        have hj3 : j < 3 := hj
        interval_cases j <;> interval_cases i <;> decide!)
      (by decide) (by decide),
    by decide!⟩

theorem C8_witness :
    ∃ r1 r2,
      NonMaximumSuppression insertionStdSort 4 scenarioDets (1 / 2) (zeroTempspace 3)
        (zeroOutput 3) = Except.ok (some r1) ∧
      NonMaximumSuppression insertionStdSort 4 scenarioDets (3 / 4) (zeroTempspace 3)
        (zeroOutput 3) = Except.ok (some r2) ∧
      r1.out_size ≤ r2.out_size :=
  C8_count_le_under_dominating_threshold insertionStdSort insertionStdSort_spec 4 scenarioDets
    (1 / 2) (3 / 4) (zeroTempspace 3) (zeroOutput 3) ⟨rfl, rfl, rfl, by decide, rfl, rfl⟩
    (by
      intro i j hi hj hij
      have hi3 : i < 3 := hi
      have hj3 : j < 3 := hj
      interval_cases i <;> interval_cases j <;> first | exact absurd rfl hij | decide!)
    (by decide) (by decide)

/-- Claim C1 fails on the code: on `ascendingPair` (distinct scores) the sorted
order is `1, 0`; the run keeps `[1]` only, the reference sweep over that order
keeps `[1, 0]`. -/
theorem C1_run_differs_from_reference :
    keepAndCount (NonMaximumSuppression insertionStdSort 3 ascendingPair (1 / 2)
      (zeroTempspace 2) (zeroOutput 2)) = some ([1], 1) ∧
    (orderRow insertionStdSort ascendingPair (zeroTempspace 2)).map castIdx = [1, 0] ∧
    referenceSweep (ovr ascendingPair (areaRow ascendingPair (zeroTempspace 2))) (1 / 2)
      ((orderRow insertionStdSort ascendingPair (zeroTempspace 2)).map castIdx)
      (fun _ => false) = [1, 0] := by
  decide!

/-- Claim C3 fails on the code: on `ascendingPair` candidate `0` is absent from
the keep list `[1]` although its overlap with the kept candidate `1` is `0`,
which does not exceed the threshold `0.5`. -/
theorem C3_dropped_without_suppressor :
    keepAndCount (NonMaximumSuppression insertionStdSort 3 ascendingPair (1 / 2)
      (zeroTempspace 2) (zeroOutput 2)) = some ([1], 1) ∧
    ovr ascendingPair (areaRow ascendingPair (zeroTempspace 2)) 1 0 = 0 ∧
    ¬ (ovr ascendingPair (areaRow ascendingPair (zeroTempspace 2)) 1 0 > 1 / 2) := by
  decide!

/-- Claim C4 fails on the code: the three boxes of `ascendingTriple` have pairwise
overlap `0`, yet the run with threshold `0.5` keeps `[2]` only and the count is
`1`, not `3`. -/
theorem C4_disjoint_boxes_not_all_kept :
    keepAndCount (NonMaximumSuppression insertionStdSort 4 ascendingTriple (1 / 2)
      (zeroTempspace 3) (zeroOutput 3)) = some ([2], 1) ∧
    (∀ i, i < 3 → ∀ j, j < 3 → i ≠ j →
      ovr ascendingTriple (areaRow ascendingTriple (zeroTempspace 3)) i j = 0) := by
  decide!

/-- Claim C5 fails on the code: on `rotatedTriple` the keep list is `[1, 0, 2]`,
whose scores are `0.9`, `0.1`, `0.5`: the entry at position `1` has a smaller
score than the entry at position `2`. -/
theorem C5_keep_list_not_descending :
    keepAndCount (NonMaximumSuppression insertionStdSort 4 rotatedTriple (1 / 2)
      (zeroTempspace 3) (zeroOutput 3)) = some ([1, 0, 2], 3) ∧
    rotatedTriple.dptr 0 4 < rotatedTriple.dptr 2 4 := by
  decide!

/-- Claim C7 fails on the code: the first run on `rotatedTriple` keeps `[1, 0, 2]`
(count `3`); the second run, on those three rows in keep-list order, keeps
`[0, 2]` only (count `2`). -/
theorem C7_second_run_drops_a_kept_row :
    keepAndCount (NonMaximumSuppression insertionStdSort 4 rotatedTriple (1 / 2)
      (zeroTempspace 3) (zeroOutput 3)) = some ([1, 0, 2], 3) ∧
    keepAndCount (NonMaximumSuppression insertionStdSort 4 (gatherRows rotatedTriple [1, 0, 2])
      (1 / 2) (zeroTempspace 3) (zeroOutput 3)) = some ([0, 2], 2) := by
  decide!

/-! ### The checks of `NonMaximumSuppression` -/

/-- Claim C13.  `NonMaximumSuppression` fails with an error, and yields no keep
list, when `dets` has no row, when `dets` does not have exactly `5` columns, and
when `tempspace` does not have exactly `4` rows of length `n`. -/
theorem C13_bad_shapes_fail
    (stdSort : (ℚ → ℚ → Bool) → List ℚ → List ℚ) (fuel : ℕ) (dets : Tensor2) (thresh : ℚ)
    (tempspace : Tensor2) (output : Tensor1)
    (hbad : dets.shape0 = 0 ∨ dets.shape1 ≠ 5 ∨ tempspace.shape0 ≠ 4 ∨
      tempspace.shape1 ≠ dets.shape0) :
    (∃ msg, NonMaximumSuppression stdSort fuel dets thresh tempspace output
      = Except.error msg) ∧
    keepAndCount (NonMaximumSuppression stdSort fuel dets thresh tempspace output) = none := by
  have key : ∃ msg, NonMaximumSuppression stdSort fuel dets thresh tempspace output
      = Except.error msg := by
    unfold NonMaximumSuppression
    by_cases h1 : dets.shape1 ≠ 5
    · exact ⟨_, if_pos h1⟩
    · rw [if_neg h1]
      by_cases h2 : dets.shape0 ≠ tempspace.shape1
      · exact ⟨_, if_pos h2⟩
      · rw [if_neg h2]
        by_cases h3 : tempspace.shape0 ≠ 4
        · exact ⟨_, if_pos h3⟩
        · rw [if_neg h3]
          by_cases h4 : ¬ (dets.shape0 > 0)
          · exact ⟨_, if_pos h4⟩
          · exfalso
            rcases hbad with h | h | h | h
            · omega
            · exact h1 h
            · exact h3 h
            · exact h2 (fun e => h e.symm)
  obtain ⟨msg, hmsg⟩ := key
  exact ⟨⟨msg, hmsg⟩, by rw [hmsg]; rfl⟩

theorem C13_witness :
    (∃ msg, NonMaximumSuppression insertionStdSort 1 (zeroTensor2 0 5) (1 / 2) (zeroTempspace 0)
      (zeroOutput 0) = Except.error msg) ∧
    keepAndCount (NonMaximumSuppression insertionStdSort 1 (zeroTensor2 0 5) (1 / 2)
      (zeroTempspace 0) (zeroOutput 0)) = none :=
  C13_bad_shapes_fail insertionStdSort 1 (zeroTensor2 0 5) (1 / 2) (zeroTempspace 0)
    (zeroOutput 0) (Or.inl rfl)

/-! ### The overlap plan -/

theorem ite_lt_eq_min (a b : ℚ) : (if a < b then a else b) = min a b := by
  rcases lt_or_le a b with h | h
  · rw [if_pos h, min_eq_left h.le]
  · rw [if_neg (not_lt.2 h), min_eq_right h]

theorem ite_gt_eq_max (a b : ℚ) : (if a > b then a else b) = max a b := by
  rcases lt_or_le b a with h | h
  · rw [if_pos h, max_eq_left h.le]
  · rw [if_neg (not_lt.2 h), max_eq_right h]

theorem OverlapPlan.iw_eq (p : OverlapPlan) (i j : ℕ) :
    p.iw i j = min (p.lhs_ i 2) (p.rhs_ j 2) - max (p.lhs_ i 0) (p.rhs_ j 0) + 1 := by
  unfold OverlapPlan.iw
  rw [ite_lt_eq_min, ite_gt_eq_max]

theorem OverlapPlan.ih_eq (p : OverlapPlan) (i j : ℕ) :
    p.ih i j = min (p.lhs_ i 3) (p.rhs_ j 3) - max (p.lhs_ i 1) (p.rhs_ j 1) + 1 := by
  unfold OverlapPlan.ih
  rw [ite_lt_eq_min, ite_gt_eq_max]

theorem OverlapPlan.iw_le (p : OverlapPlan) (i j : ℕ) :
    p.iw i j ≤ p.lhs_ i 2 - p.lhs_ i 0 + 1 ∧ p.iw i j ≤ p.rhs_ j 2 - p.rhs_ j 0 + 1 := by
  rw [OverlapPlan.iw_eq]
  have h1 := min_le_left (p.lhs_ i 2) (p.rhs_ j 2)
  have h2 := min_le_right (p.lhs_ i 2) (p.rhs_ j 2)
  have h3 := le_max_left (p.lhs_ i 0) (p.rhs_ j 0)
  have h4 := le_max_right (p.lhs_ i 0) (p.rhs_ j 0)
  constructor <;> linarith

theorem OverlapPlan.ih_le (p : OverlapPlan) (i j : ℕ) :
    p.ih i j ≤ p.lhs_ i 3 - p.lhs_ i 1 + 1 ∧ p.ih i j ≤ p.rhs_ j 3 - p.rhs_ j 1 + 1 := by
  rw [OverlapPlan.ih_eq]
  have h1 := min_le_left (p.lhs_ i 3) (p.rhs_ j 3)
  have h2 := min_le_right (p.lhs_ i 3) (p.rhs_ j 3)
  have h3 := le_max_left (p.lhs_ i 1) (p.rhs_ j 1)
  have h4 := le_max_right (p.lhs_ i 1) (p.rhs_ j 1)
  constructor <;> linarith

/-- Claim C16.  For every pair of rows, degenerate boxes included, the value of
`Plan<OverlapExp>::Eval(i, j)` is the overlap of the specification (zero when
`iw < 0` or `ih < 0`, otherwise `iw * ih` over the sum of the clamped areas minus
`iw * ih`), over exact arithmetic. -/
theorem C16_eval_is_spec_overlap (p : OverlapPlan) (i j : ℕ) :
    p.Eval i j = specIoU (boxOfRow p.lhs_ i) (boxOfRow p.rhs_ j) := by
  unfold OverlapPlan.Eval specIoU
  simp only [boxOfRow]
  rw [← OverlapPlan.iw_eq, ← OverlapPlan.ih_eq]
  by_cases hw : p.iw i j < 0
  · rw [if_pos hw, if_pos (Or.inl hw)]
  · rw [if_neg hw]
    by_cases hh : p.ih i j < 0
    · rw [if_pos hh, if_pos (Or.inr hh)]
    · rw [if_neg hh, if_neg (by rintro (h | h); exact hw h; exact hh h)]
      have hw0 := not_lt.1 hw
      have hh0 := not_lt.1 hh
      obtain ⟨a1, a2⟩ := p.iw_le i j
      obtain ⟨b1, b2⟩ := p.ih_le i j
      unfold OverlapPlan.ua OverlapPlan.box_area specArea
      simp only
      rw [max_eq_right (le_trans hw0 a1), max_eq_right (le_trans hh0 b1),
        max_eq_right (le_trans hw0 a2), max_eq_right (le_trans hh0 b2)]

theorem ovr_eq_interArea (dets : Tensor2) (area : ℕ → ℚ) (i j : ℕ) :
    ovr dets area i j = interArea dets i j / (area i + area j - interArea dets i j) := rfl

theorem OverlapPlan.ua_bounds (p : OverlapPlan) (i j : ℕ) (hA : WellFormed p.lhs_ i)
    (hB : WellFormed p.rhs_ j) (_hw : 0 ≤ p.iw i j) (hh : 0 ≤ p.ih i j) :
    0 < p.ua i j ∧ p.iw i j * p.ih i j ≤ p.ua i j := by
  obtain ⟨a1, a2⟩ := p.iw_le i j
  obtain ⟨b1, b2⟩ := p.ih_le i j
  obtain ⟨hAx, hAy⟩ := hA
  obtain ⟨hBx, hBy⟩ := hB
  have hwA : 0 < p.lhs_ i 2 - p.lhs_ i 0 + 1 := by linarith
  have hhA : 0 < p.lhs_ i 3 - p.lhs_ i 1 + 1 := by linarith
  have hwB : 0 < p.rhs_ j 2 - p.rhs_ j 0 + 1 := by linarith
  have hA0 : 0 < (p.lhs_ i 2 - p.lhs_ i 0 + 1) * (p.lhs_ i 3 - p.lhs_ i 1 + 1) :=
    mul_pos hwA hhA
  have hiA : p.iw i j * p.ih i j
      ≤ (p.lhs_ i 2 - p.lhs_ i 0 + 1) * (p.lhs_ i 3 - p.lhs_ i 1 + 1) :=
    mul_le_mul a1 b1 hh hwA.le
  have hiB : p.iw i j * p.ih i j
      ≤ (p.rhs_ j 2 - p.rhs_ j 0 + 1) * (p.rhs_ j 3 - p.rhs_ j 1 + 1) :=
    mul_le_mul a2 b2 hh hwB.le
  unfold OverlapPlan.ua OverlapPlan.box_area
  constructor <;> linarith

/-- Claim C19.  For well-formed boxes in row `i` of the left operand and row `j`
of the right operand, the overlap `Plan<OverlapExp>::Eval(i, j)` lies in
`[0, 1]`, its denominator `ua` is strictly positive whenever it is computed
(`iw >= 0` and `ih >= 0`), and the overlap of a well-formed box with itself is
exactly `1`. -/
theorem C19_eval_in_unit_interval (p : OverlapPlan) (i j : ℕ) (hA : WellFormed p.lhs_ i)
    (hB : WellFormed p.rhs_ j) :
    0 ≤ p.Eval i j ∧ p.Eval i j ≤ 1 ∧
      (¬ p.iw i j < 0 → ¬ p.ih i j < 0 → 0 < p.ua i j) ∧
      (OverlapPlan.mk p.lhs_ p.lhs_).Eval i i = 1 := by
  have hE : 0 ≤ p.Eval i j ∧ p.Eval i j ≤ 1 := by
    unfold OverlapPlan.Eval
    by_cases hw : p.iw i j < 0
    · rw [if_pos hw]; exact ⟨le_refl 0, zero_le_one⟩
    · rw [if_neg hw]
      by_cases hh : p.ih i j < 0
      · rw [if_pos hh]; exact ⟨le_refl 0, zero_le_one⟩
      · rw [if_neg hh]
        obtain ⟨hpos, hle⟩ := p.ua_bounds i j hA hB (not_lt.1 hw) (not_lt.1 hh)
        exact ⟨div_nonneg (mul_nonneg (not_lt.1 hw) (not_lt.1 hh)) hpos.le,
          (div_le_one hpos).2 hle⟩
  refine ⟨hE.1, hE.2, ?_, ?_⟩
  · intro hw hh
    exact (p.ua_bounds i j hA hB (not_lt.1 hw) (not_lt.1 hh)).1
  · obtain ⟨hAx, hAy⟩ := hA
    have hwA : 0 < p.lhs_ i 2 - p.lhs_ i 0 + 1 := by linarith
    have hhA : 0 < p.lhs_ i 3 - p.lhs_ i 1 + 1 := by linarith
    have e1 : (OverlapPlan.mk p.lhs_ p.lhs_).iw i i = p.lhs_ i 2 - p.lhs_ i 0 + 1 := by
      rw [OverlapPlan.iw_eq]; simp only [min_self, max_self]
    have e2 : (OverlapPlan.mk p.lhs_ p.lhs_).ih i i = p.lhs_ i 3 - p.lhs_ i 1 + 1 := by
      rw [OverlapPlan.ih_eq]; simp only [min_self, max_self]
    unfold OverlapPlan.Eval OverlapPlan.ua OverlapPlan.box_area
    rw [e1, e2, if_neg (not_lt.2 hwA.le), if_neg (not_lt.2 hhA.le)]
    simp only
    rw [add_sub_cancel_right]
    exact div_self (mul_pos hwA hhA).ne'

theorem C19_witness :
    0 ≤ (OverlapPlan.mk scenarioDets.dptr scenarioDets.dptr).Eval 0 1 ∧
      (OverlapPlan.mk scenarioDets.dptr scenarioDets.dptr).Eval 0 1 ≤ 1 ∧
      (¬ (OverlapPlan.mk scenarioDets.dptr scenarioDets.dptr).iw 0 1 < 0 →
        ¬ (OverlapPlan.mk scenarioDets.dptr scenarioDets.dptr).ih 0 1 < 0 →
        0 < (OverlapPlan.mk scenarioDets.dptr scenarioDets.dptr).ua 0 1) ∧
      (OverlapPlan.mk scenarioDets.dptr scenarioDets.dptr).Eval 0 0 = 1 :=
  C19_eval_in_unit_interval (OverlapPlan.mk scenarioDets.dptr scenarioDets.dptr) 0 1
    (by unfold WellFormed; decide!) (by unfold WellFormed; decide!)

/-- Claim C17.  For two rows of `dets` that hold well-formed boxes, the overlap
`ovr` computed by the sweep of `NonMaximumSuppression` (from the `area` row it
filled) equals `Plan<OverlapExp>::Eval` on the same two boxes, over exact
arithmetic, and the denominator of `ovr` is strictly positive. -/
theorem C17_sweep_overlap_is_plan_overlap (dets tempspace : Tensor2) (i j : ℕ)
    (hi : i < dets.shape0) (hj : j < dets.shape0)
    (hA : WellFormed dets.dptr i) (hB : WellFormed dets.dptr j) :
    ovr dets (areaRow dets tempspace) i j = (OverlapPlan.mk dets.dptr dets.dptr).Eval i j ∧
      0 < areaRow dets tempspace i + areaRow dets tempspace j - interArea dets i j := by
  have ew : interArea dets i j
      = max 0 ((OverlapPlan.mk dets.dptr dets.dptr).iw i j)
        * max 0 ((OverlapPlan.mk dets.dptr dets.dptr).ih i j) := by
    rw [OverlapPlan.iw_eq, OverlapPlan.ih_eq]
    rfl
  have eA : areaRow dets tempspace i = boxArea dets i := by
    unfold areaRow; rw [if_pos hi]
  have eB : areaRow dets tempspace j = boxArea dets j := by
    unfold areaRow; rw [if_pos hj]
  have hAx := hA.1
  have hAy := hA.2
  have hBx := hB.1
  have hBy := hB.2
  have hwA : 0 < dets.dptr i 2 - dets.dptr i 0 + 1 := by linarith
  have hhA : 0 < dets.dptr i 3 - dets.dptr i 1 + 1 := by linarith
  have hwB : 0 < dets.dptr j 2 - dets.dptr j 0 + 1 := by linarith
  have hhB : 0 < dets.dptr j 3 - dets.dptr j 1 + 1 := by linarith
  have hAB : 0 < boxArea dets i + boxArea dets j :=
    add_pos (mul_pos hwA hhA) (mul_pos hwB hhB)
  rw [ovr_eq_interArea, eA, eB, ew]
  unfold OverlapPlan.Eval
  by_cases hw : (OverlapPlan.mk dets.dptr dets.dptr).iw i j < 0
  · rw [if_pos hw, max_eq_left hw.le, zero_mul, zero_div, sub_zero]
    exact ⟨rfl, hAB⟩
  · rw [if_neg hw]
    by_cases hh : (OverlapPlan.mk dets.dptr dets.dptr).ih i j < 0
    · rw [if_pos hh, max_eq_left hh.le, mul_zero, zero_div, sub_zero]
      exact ⟨rfl, hAB⟩
    · rw [if_neg hh, max_eq_right (not_lt.1 hw), max_eq_right (not_lt.1 hh)]
      exact ⟨rfl, ((OverlapPlan.mk dets.dptr dets.dptr).ua_bounds i j hA hB
        (not_lt.1 hw) (not_lt.1 hh)).1⟩

theorem C17_witness :
    ovr scenarioDets (areaRow scenarioDets (zeroTempspace 3)) 0 1
        = (OverlapPlan.mk scenarioDets.dptr scenarioDets.dptr).Eval 0 1 ∧
      0 < areaRow scenarioDets (zeroTempspace 3) 0 + areaRow scenarioDets (zeroTempspace 3) 1
        - interArea scenarioDets 0 1 :=
  C17_sweep_overlap_is_plan_overlap scenarioDets (zeroTempspace 3) 0 1 (by decide) (by decide)
    (by unfold WellFormed; decide!) (by unfold WellFormed; decide!)

/-! ### The area row -/

/-- Claim C18, as amended.  Over exact arithmetic, for every candidate `i` of
every input, the cell `area[i]` filled by the first loop holds the unclamped
product `(x2 - x1 + 1) * (y2 - y1 + 1)`; when both factors are non-negative (in
particular for a well-formed box) this is the clamped area of the specification
and it is non-negative; a run that returns leaves that value in `area[i]`; and
on an input of at most `2 ^ 24 + 1` rows that passes the checks the run does
return. -/
theorem C18_area_row_is_unclamped_product (dets tempspace : Tensor2) (i : ℕ)
    (hi : i < dets.shape0) :
    areaRow dets tempspace i
        = (dets.dptr i 2 - dets.dptr i 0 + 1) * (dets.dptr i 3 - dets.dptr i 1 + 1) ∧
      (0 ≤ dets.dptr i 2 - dets.dptr i 0 + 1 → 0 ≤ dets.dptr i 3 - dets.dptr i 1 + 1 →
        areaRow dets tempspace i = specArea (boxOfRow dets.dptr i) ∧
          0 ≤ areaRow dets tempspace i) ∧
      (∀ (stdSort : (ℚ → ℚ → Bool) → List ℚ → List ℚ) (fuel : ℕ) (thresh : ℚ)
        (output : Tensor1) (r : NmsResult),
        NonMaximumSuppression stdSort fuel dets thresh tempspace output = Except.ok (some r) →
        r.area i = areaRow dets tempspace i) ∧
      ∀ (stdSort : (ℚ → ℚ → Bool) → List ℚ → List ℚ) (fuel : ℕ) (thresh : ℚ)
        (output : Tensor1), StdSortSpec stdSort → ChecksPass dets tempspace →
        dets.shape0 ≤ 2 ^ 24 + 1 → dets.shape0 + 1 ≤ fuel →
        ∃ r, NonMaximumSuppression stdSort fuel dets thresh tempspace output
            = Except.ok (some r) ∧
          r.area i = areaRow dets tempspace i := by
  have e : areaRow dets tempspace i
      = (dets.dptr i 2 - dets.dptr i 0 + 1) * (dets.dptr i 3 - dets.dptr i 1 + 1) := by
    unfold areaRow boxArea
    rw [if_pos hi]
  refine ⟨e, ?_, ?_, ?_⟩
  · intro hw hh
    rw [e]
    unfold specArea boxOfRow
    simp only
    rw [max_eq_right hw, max_eq_right hh]
    exact ⟨rfl, mul_nonneg hw hh⟩
  · intro stdSort fuel thresh output r hr
    unfold NonMaximumSuppression at hr
    split_ifs at hr
    simp only [Except.ok.injEq] at hr
    cases ho : outerLoop dets (areaRow dets tempspace) (orderRow stdSort dets tempspace) thresh
        fuel 0 ⟨fun i => tempspace.dptr 3 i, output.dptr, 0⟩ with
    | none => rw [ho] at hr; simp at hr
    | some st =>
      rw [ho] at hr
      simp only [Option.map_some', Option.some.injEq] at hr
      rw [← hr]
  · intro stdSort fuel thresh output hs hchk hn hfuel
    obtain ⟨p, r, -, hr, -, -, -, harea, -⟩ :=
      nms_run stdSort hs fuel dets thresh tempspace output hchk hn hfuel
    exact ⟨r, hr, by rw [harea]⟩

theorem C18_witness :
    (areaRow unitDets (zeroTempspace 1) 0
        = (unitDets.dptr 0 2 - unitDets.dptr 0 0 + 1) * (unitDets.dptr 0 3 - unitDets.dptr 0 1 + 1) ∧
      (0 ≤ unitDets.dptr 0 2 - unitDets.dptr 0 0 + 1 →
        0 ≤ unitDets.dptr 0 3 - unitDets.dptr 0 1 + 1 →
        areaRow unitDets (zeroTempspace 1) 0 = specArea (boxOfRow unitDets.dptr 0) ∧
          0 ≤ areaRow unitDets (zeroTempspace 1) 0) ∧
      (∀ (stdSort : (ℚ → ℚ → Bool) → List ℚ → List ℚ) (fuel : ℕ) (thresh : ℚ)
        (output : Tensor1) (r : NmsResult),
        NonMaximumSuppression stdSort fuel unitDets thresh (zeroTempspace 1) output
          = Except.ok (some r) →
        r.area 0 = areaRow unitDets (zeroTempspace 1) 0) ∧
      ∀ (stdSort : (ℚ → ℚ → Bool) → List ℚ → List ℚ) (fuel : ℕ) (thresh : ℚ)
        (output : Tensor1), StdSortSpec stdSort → ChecksPass unitDets (zeroTempspace 1) →
        unitDets.shape0 ≤ 2 ^ 24 + 1 → unitDets.shape0 + 1 ≤ fuel →
        ∃ r, NonMaximumSuppression stdSort fuel unitDets thresh (zeroTempspace 1) output
            = Except.ok (some r) ∧
          r.area 0 = areaRow unitDets (zeroTempspace 1) 0) ∧
    areaAfter (NonMaximumSuppression insertionStdSort 2 unitDets (1 / 2) (zeroTempspace 1)
      (zeroOutput 1)) 1 = some [100] ∧
    areaRow32 unitDets (zeroTempspace 1) 0 = F32.fin 100 :=
  ⟨C18_area_row_is_unclamped_product unitDets (zeroTempspace 1) 0 (by decide), by decide!,
    by decide!⟩

/-- Claim C18 fails as stated: for the degenerate box `(0, 0, -3, 2)` the run
stores `-6` in `area[0]`, over exact arithmetic and in binary32 alike, where the
clamped area of the specification is `0`. -/
theorem C18_counterexample :
    areaAfter (NonMaximumSuppression insertionStdSort 2 degenerateDets (1 / 2) (zeroTempspace 1)
      (zeroOutput 1)) 1 = some [-6] ∧
    specArea (boxOfRow degenerateDets.dptr 0) = 0 ∧ (-6 : ℚ) < 0 ∧
    areaRow32 degenerateDets (zeroTempspace 1) 0 = F32.fin (-6) := by
  decide!

/-! ### The checks of the box transforms -/

/-- Claim C20 fails on the code: when `boxes`, `deltas` and `out_pred_boxes` all
have shape `(n, 4)` with `n` other than `4`, the last check of
`bbox_transform_inv` compares `n` with the column count `4` and fails, whereas
`bbox_transform` accepts the same shapes. -/
theorem C20_inv_rejects_matching_shapes (exp log : ℚ → ℚ)
    (boxes deltas out_pred_boxes : Tensor2)
    (h1 : boxes.shape1 = 4) (h2 : deltas.shape1 = 4) (h3 : out_pred_boxes.shape1 = 4)
    (h4 : boxes.shape0 = deltas.shape0) (h5 : deltas.shape0 = out_pred_boxes.shape0)
    (hn : boxes.shape0 ≠ 4) :
    bbox_transform_inv exp boxes deltas out_pred_boxes
        = Except.error "deltas.size(0) == out_pred_boxes->size(1)" ∧
      ∃ t, bbox_transform log boxes deltas out_pred_boxes = Except.ok t := by
  constructor
  · unfold bbox_transform_inv
    rw [if_neg (not_not.2 h1), if_neg (not_not.2 h2), if_neg (not_not.2 h3),
      if_neg (not_not.2 h4), if_pos (by rw [h3, ← h4]; exact hn)]
  · unfold bbox_transform
    rw [if_neg (not_not.2 h1), if_neg (not_not.2 h2), if_neg (not_not.2 h3),
      if_neg (not_not.2 h4), if_neg (not_not.2 h5)]
    exact ⟨_, rfl⟩

theorem C20_witness :
    bbox_transform_inv (fun x => x) (zeroTensor2 1 4) (zeroTensor2 1 4) (zeroTensor2 1 4)
        = Except.error "deltas.size(0) == out_pred_boxes->size(1)" ∧
      ∃ t, bbox_transform (fun x => x) (zeroTensor2 1 4) (zeroTensor2 1 4) (zeroTensor2 1 4)
        = Except.ok t :=
  C20_inv_rejects_matching_shapes (fun x => x) (fun x => x) (zeroTensor2 1 4) (zeroTensor2 1 4)
    (zeroTensor2 1 4) rfl rfl rfl rfl rfl (by decide)

/-! ### The scratch tensor on entry -/

/-- Claim C15 fails on the code: a run on `scenarioDets` leaves `0, 1, 0` in the
`surprised` row; on `descendingTriple` (no two boxes intersect) a run with an
all-zero scratch tensor keeps `[0, 1, 2]`, a run with the scratch tensor left as
above keeps `[0, 2]`. -/
theorem C15_result_depends_on_scratch :
    surprisedAfter (NonMaximumSuppression insertionStdSort 4 scenarioDets (1 / 2)
      (zeroTempspace 3) (zeroOutput 3)) 3 = some [0, 1, 0] ∧
    keepAndCount (NonMaximumSuppression insertionStdSort 4 descendingTriple (1 / 2)
      (zeroTempspace 3) (zeroOutput 3)) = some ([0, 1, 2], 3) ∧
    keepAndCount (NonMaximumSuppression insertionStdSort 4 descendingTriple (1 / 2)
      staleTempspace (zeroOutput 3)) = some ([0, 2], 2) := by
  decide!

/-! ### The cells written in the keep buffer -/

theorem greedy_out_size_keep (dets : Tensor2) (area : ℕ → ℚ) (thresh : ℚ) :
    ∀ (p : List ℕ) (st : SweepState),
      st.out_size ≤ (greedy dets area thresh p st).out_size ∧
        ∀ k, (greedy dets area thresh p st).out_size ≤ k →
          (greedy dets area thresh p st).keep k = st.keep k := by
  intro p
  induction p with
  | nil => intro st; exact ⟨le_refl _, fun _ _ => rfl⟩
  | cons i rest ih =>
    intro st
    rw [greedy]
    by_cases hs : st.surprised i > 0
    · rw [if_pos hs]
      exact ih st
    · rw [if_neg hs]
      obtain ⟨h1, h2⟩ := ih ⟨rest.foldl (suppStep dets area thresh i) st.surprised,
        Function.update st.keep st.out_size (floatOfIndex i), st.out_size + 1⟩
      refine ⟨by simp only at h1; omega, ?_⟩
      intro k hk
      rw [h2 k hk]
      simp only at h1
      exact Function.update_noteq (by omega) _ _

theorem greedy_keep_cells (dets : Tensor2) (area : ℕ → ℚ) (thresh : ℚ) :
    ∀ (p : List ℕ) (st : SweepState), (∀ x ∈ p, x ≤ 2 ^ 24) →
      (∀ a, a < st.out_size → st.keep a = ((castIdx (st.keep a) : ℕ) : ℚ)) →
      ∀ a, a < (greedy dets area thresh p st).out_size →
        (greedy dets area thresh p st).keep a
          = ((castIdx ((greedy dets area thresh p st).keep a) : ℕ) : ℚ) := by
  intro p
  induction p with
  | nil => intro st _ h; exact h
  | cons i rest ih =>
    intro st hp h
    have hrest : ∀ x ∈ rest, x ≤ 2 ^ 24 := fun x hx => hp x (List.mem_cons_of_mem i hx)
    have hi : i ≤ 2 ^ 24 := hp i (List.mem_cons_self i rest)
    rw [greedy]
    by_cases hs : st.surprised i > 0
    · rw [if_pos hs]
      exact ih st hrest h
    · rw [if_neg hs]
      apply ih _ hrest
      intro a ha
      simp only at ha ⊢
      by_cases hae : a = st.out_size
      · rw [hae, Function.update_same, castIdx_floatOfIndex i hi, floatOfIndex_small i hi]
      · rw [Function.update_noteq hae]
        exact h a (by omega)

theorem nms_run_state (stdSort : (ℚ → ℚ → Bool) → List ℚ → List ℚ) (hs : StdSortSpec stdSort)
    (fuel : ℕ) (dets : Tensor2) (thresh : ℚ) (tempspace : Tensor2) (output : Tensor1)
    (hchk : ChecksPass dets tempspace) (hn : dets.shape0 ≤ 2 ^ 24 + 1)
    (hfuel : dets.shape0 + 1 ≤ fuel) :
    ∃ p,
      cursorPath (fun c => castIdx ((orderRow stdSort dets tempspace).getD c 0))
        dets.shape0 fuel 0 = some p ∧
      NonMaximumSuppression stdSort fuel dets thresh tempspace output
        = Except.ok (some ⟨scoreRow dets tempspace, areaRow dets tempspace,
            orderRow stdSort dets tempspace,
            (greedy dets (areaRow dets tempspace) thresh p
              ⟨fun i => tempspace.dptr 3 i, output.dptr, 0⟩).surprised,
            (greedy dets (areaRow dets tempspace) thresh p
              ⟨fun i => tempspace.dptr 3 i, output.dptr, 0⟩).keep,
            (greedy dets (areaRow dets tempspace) thresh p
              ⟨fun i => tempspace.dptr 3 i, output.dptr, 0⟩).out_size⟩) := by
  obtain ⟨h1, h2, h3, h4, h5, h6⟩ := hchk
  obtain ⟨p, hp⟩ :=
    cursorPath_terminates _ _ _ (orderRow_ok stdSort hs dets tempspace hn) fuel hfuel
  refine ⟨p, hp, ?_⟩
  unfold NonMaximumSuppression
  simp only [h1, h3, h4, h5, h6, ← h2, ne_eq, not_true_eq_false, if_false, gt_iff_lt,
    not_lt, not_le, outerLoop_eq, hp, Option.map_some']

theorem nodup_length_le (l : List ℕ) (n : ℕ) (hnd : l.Nodup) (hlt : ∀ x ∈ l, x < n) :
    l.length ≤ n := by
  have hsub : l.toFinset ⊆ Finset.range n := by
    intro x hx
    exact Finset.mem_range.2 (hlt x (List.mem_toFinset.1 hx))
  have := Finset.card_le_card hsub
  rw [List.toFinset_card_of_nodup hnd, Finset.card_range] at this
  exact this

theorem nms_keep_buffer
    (stdSort : (ℚ → ℚ → Bool) → List ℚ → List ℚ) (hs : StdSortSpec stdSort)
    (fuel : ℕ) (dets : Tensor2) (thresh : ℚ) (tempspace : Tensor2) (output : Tensor1)
    (hchk : ChecksPass dets tempspace) (hn : dets.shape0 ≤ 2 ^ 24 + 1)
    (hfuel : dets.shape0 + 1 ≤ fuel) :
    ∃ r, NonMaximumSuppression stdSort fuel dets thresh tempspace output = Except.ok (some r) ∧
      r.out_size ≤ dets.shape0 ∧ r.keepList.Nodup ∧ (∀ x ∈ r.keepList, x < dets.shape0) ∧
      (∀ a, a < r.out_size → r.keep a = ((castIdx (r.keep a) : ℕ) : ℚ)) ∧
      (∀ k, r.out_size ≤ k → r.keep k = output.dptr k) := by
  obtain ⟨p, hp, hr⟩ :=
    nms_run_state stdSort hs fuel dets thresh tempspace output hchk hn hfuel
  have hok := orderRow_ok stdSort hs dets tempspace hn
  have hpnd := cursorPath_nodup _ _ hok.inj fuel p hp
  have hplt : ∀ x ∈ p, x < dets.shape0 := by
    intro x hx
    obtain ⟨c, hc, hxc⟩ := cursorPath_mem _ _ _ _ _ hp x hx
    rw [hxc]
    exact hok.lt c hc
  have hsmall : ∀ x ∈ p, x ≤ 2 ^ 24 := by
    intro x hx
    have := hplt x hx
    omega
  have hkl := greedy_keepList dets (areaRow dets tempspace) thresh p
    ⟨fun i => tempspace.dptr 3 i, output.dptr, 0⟩ hsmall
  have hkl0 : SweepState.keepList ⟨fun i => tempspace.dptr 3 i, output.dptr, 0⟩ = [] := rfl
  rw [hkl0, List.nil_append] at hkl
  have hsub := greedyKeep_sublist dets (areaRow dets tempspace) thresh p
    (fun i => tempspace.dptr 3 i)
  have hlen := keepList_length (greedy dets (areaRow dets tempspace) thresh p
    ⟨fun i => tempspace.dptr 3 i, output.dptr, 0⟩)
  have hcells := greedy_keep_cells dets (areaRow dets tempspace) thresh p
    ⟨fun i => tempspace.dptr 3 i, output.dptr, 0⟩ hsmall
    (fun a ha => absurd ha (Nat.not_lt_zero a))
  have hbeyond := (greedy_out_size_keep dets (areaRow dets tempspace) thresh p
    ⟨fun i => tempspace.dptr 3 i, output.dptr, 0⟩).2
  refine ⟨_, hr, ?_, ?_, ?_, hcells, hbeyond⟩
  · show (greedy dets (areaRow dets tempspace) thresh p
      ⟨fun i => tempspace.dptr 3 i, output.dptr, 0⟩).out_size ≤ dets.shape0
    rw [← hlen, hkl]
    exact nodup_length_le _ _ (hsub.nodup hpnd) (fun x hx => hplt x (hsub.subset hx))
  · show (SweepState.keepList (greedy dets (areaRow dets tempspace) thresh p
      ⟨fun i => tempspace.dptr 3 i, output.dptr, 0⟩)).Nodup
    rw [hkl]
    exact hsub.nodup hpnd
  · intro x hx
    have hx' : x ∈ SweepState.keepList (greedy dets (areaRow dets tempspace) thresh p
      ⟨fun i => tempspace.dptr 3 i, output.dptr, 0⟩) := hx
    rw [hkl] at hx'
    exact hplt x (hsub.subset hx')

/-- Claim C12, as amended.  On every input of at most `2 ^ 24 + 1` rows that passes
the checks, whatever the threshold, the run finishes with `count <= n`; the first
`count` cells of the keep buffer hold pairwise distinct row indices below `n`;
and no cell at or beyond `count` is written, so that a buffer of length `n` is
never written out of bounds. -/
theorem C12_keep_buffer_within_bounds
    (stdSort : (ℚ → ℚ → Bool) → List ℚ → List ℚ) (hs : StdSortSpec stdSort)
    (fuel : ℕ) (dets : Tensor2) (thresh : ℚ) (tempspace : Tensor2) (output : Tensor1)
    (hchk : ChecksPass dets tempspace) (hn : dets.shape0 ≤ 2 ^ 24 + 1)
    (hfuel : dets.shape0 + 1 ≤ fuel) :
    ∃ r, NonMaximumSuppression stdSort fuel dets thresh tempspace output = Except.ok (some r) ∧
      r.out_size ≤ dets.shape0 ∧ r.keepList.Nodup ∧ (∀ x ∈ r.keepList, x < dets.shape0) ∧
      (∀ a, a < r.out_size → r.keep a = ((castIdx (r.keep a) : ℕ) : ℚ)) ∧
      (∀ k, r.out_size ≤ k → r.keep k = output.dptr k) :=
  nms_keep_buffer stdSort hs fuel dets thresh tempspace output hchk hn hfuel

theorem C12_witness :
    ∃ r, NonMaximumSuppression insertionStdSort 4 rotatedTriple (1 / 2) (zeroTempspace 3)
        (zeroOutput 3) = Except.ok (some r) ∧
      r.out_size ≤ rotatedTriple.shape0 ∧ r.keepList.Nodup ∧
      (∀ x ∈ r.keepList, x < rotatedTriple.shape0) ∧
      (∀ a, a < r.out_size → r.keep a = ((castIdx (r.keep a) : ℕ) : ℚ)) ∧
      (∀ k, r.out_size ≤ k → r.keep k = (zeroOutput 3).dptr k) :=
  C12_keep_buffer_within_bounds insertionStdSort insertionStdSort_spec 4 rotatedTriple (1 / 2)
    (zeroTempspace 3) (zeroOutput 3) ⟨rfl, rfl, rfl, by decide, rfl, rfl⟩ (by decide) (by decide)

/-! ### The length of the output buffer -/

/-- Claim C14 fails on the code: with `n = 3` candidates and an output buffer of
length `1` the run does not fail; it returns the count `2` and has written the
cells `keep[0] = 0` and `keep[1] = 2`, the second one past the end of the
buffer. -/
theorem C14_short_output_is_overrun :
    keepAndCount (NonMaximumSuppression insertionStdSort 4 scenarioDets (1 / 2)
      (zeroTempspace 3) (zeroOutput 1)) = some ([0, 2], 2) ∧
    (zeroOutput 1).shape0 = 1 ∧ (zeroOutput 1).shape0 ≠ scenarioDets.shape0 := by
  decide!

/-! ### Termination for every permutation in the order row -/

theorem perm_resolve (order : List ℚ) (n : ℕ)
    (hperm : order.Perm (List.map (fun i : ℕ => (i : ℚ)) (List.range n))) :
    (∀ c, c < n → castIdx (order.getD c 0) < n) ∧
      ∀ c c', c < n → c' < n → castIdx (order.getD c 0) = castIdx (order.getD c' 0) → c = c' := by
  have hpermN : (order.map castIdx).Perm (List.range n) := by
    have h := hperm.map castIdx
    have e : List.map castIdx (List.map (fun i : ℕ => (i : ℚ)) (List.range n))
        = List.range n := by
      rw [List.map_map]
      conv_rhs => rw [← List.map_id (List.range n)]
      apply List.map_congr_left
      intro a _
      simp [castIdx]
    rw [e] at h
    exact h
  have hlen0 : order.length = n := by
    have := hpermN.length_eq
    rw [List.length_map, List.length_range] at this
    exact this
  have hlen : (order.map castIdx).length = n := by
    rw [List.length_map, hlen0]
  have hidx : ∀ c (hc : c < n), castIdx (order.getD c 0) = (order.map castIdx)[c] := by
    intro c hc
    rw [List.getD_eq_getElem _ _ (by rw [hlen0]; exact hc), List.getElem_map]
  constructor
  · intro c hc
    rw [hidx c hc]
    exact List.mem_range.1 ((hpermN.mem_iff).1 (List.getElem_mem _))
  · intro c c' hc hc' h
    rw [hidx c hc, hidx c' hc'] at h
    have hnd : (order.map castIdx).Nodup := (hpermN.nodup_iff).2 (List.nodup_range _)
    exact (hnd.getElem_inj_iff).1 h

theorem cursorPath_length (idx : ℕ → ℕ) (n : ℕ) :
    ∀ (fuel c : ℕ) (p : List ℕ), cursorPath idx n fuel c = some p → p.length + 1 ≤ fuel := by
  intro fuel
  induction fuel with
  | zero => intro c p h; simp [cursorPath] at h
  | succ fuel ih =>
    intro c p h
    unfold cursorPath at h
    by_cases hcn : c < n
    · rw [if_pos hcn] at h
      cases hq : cursorPath idx n fuel (idx c + 1) with
      | none => rw [hq] at h; simp at h
      | some q =>
        rw [hq] at h
        simp only [Option.map_some', Option.some.injEq] at h
        subst h
        have := ih _ q hq
        simp only [List.length_cons]
        omega
    · rw [if_neg hcn] at h
      simp only [Option.some.injEq] at h
      subst h
      simp

theorem cursorPath_mono (idx : ℕ → ℕ) (n : ℕ) :
    ∀ (fuel c : ℕ) (p : List ℕ), cursorPath idx n fuel c = some p →
      cursorPath idx n (fuel + 1) c = some p := by
  intro fuel
  induction fuel with
  | zero => intro c p h; simp [cursorPath] at h
  | succ fuel ih =>
    intro c p h
    unfold cursorPath at h ⊢
    by_cases hcn : c < n
    · rw [if_pos hcn] at h ⊢
      cases hq : cursorPath idx n fuel (idx c + 1) with
      | none => rw [hq] at h; simp at h
      | some q =>
        rw [hq] at h
        rw [ih _ q hq]
        exact h
    · rw [if_neg hcn] at h ⊢
      exact h

theorem cursorPath_suffix (idx : ℕ → ℕ) (n : ℕ) :
    ∀ (fuel c : ℕ) (p : List ℕ), cursorPath idx n fuel c = some p →
      ∀ i ∈ p, ∃ q, cursorPath idx n fuel (i + 1) = some q := by
  intro fuel
  induction fuel with
  | zero => intro c p h; simp [cursorPath] at h
  | succ fuel ih =>
    intro c p h i hi
    unfold cursorPath at h
    by_cases hcn : c < n
    · rw [if_pos hcn] at h
      cases hq : cursorPath idx n fuel (idx c + 1) with
      | none => rw [hq] at h; simp at h
      | some q =>
        rw [hq] at h
        simp only [Option.map_some', Option.some.injEq] at h
        subst h
        rcases List.mem_cons.1 hi with h1 | h1
        · rw [h1]
          exact ⟨q, cursorPath_mono idx n fuel _ q hq⟩
        · obtain ⟨q', hq'⟩ := ih _ q hq i h1
          exact ⟨q', cursorPath_mono idx n fuel _ q' hq'⟩
    · rw [if_neg hcn] at h
      simp only [Option.some.injEq] at h
      subst h
      simp at hi

/-- Claim C11.  For every threshold, every state on entry and every permutation
of `0, ..., n - 1` in the order row, the sweep terminates although both loops
overwrite their cursors: the outer loop returns within `n` iterations (fuel
`n + 1`, the last unit being the failing loop test), the rows `p` it resolves
are at most `n`, and the inner loop started after any of them returns within `n`
iterations. -/
theorem C11_sweep_terminates (dets : Tensor2) (area : ℕ → ℚ) (order : List ℚ) (thresh : ℚ)
    (st : SweepState)
    (hperm : order.Perm (List.map (fun i : ℕ => (i : ℚ)) (List.range dets.shape0))) :
    ∃ p, cursorPath (fun c => castIdx (order.getD c 0)) dets.shape0 (dets.shape0 + 1) 0 = some p ∧
      p.length ≤ dets.shape0 ∧
      outerLoop dets area order thresh (dets.shape0 + 1) 0 st
        = some (greedy dets area thresh p st) ∧
      ∀ i ∈ p, ∀ s, ∃ s',
        innerLoop dets area order thresh i (dets.shape0 + 1) (i + 1) s = some s' := by
  obtain ⟨-, hinj⟩ := perm_resolve order dets.shape0 hperm
  obtain ⟨p, hp⟩ := cursorPath_isSome_aux (fun c => castIdx (order.getD c 0)) dets.shape0 hinj
    (dets.shape0 + 1) ∅ 0 (by intro x hx; simp at hx) (by simp)
    (by
      intro x hx
      simp only [Finset.mem_insert, Finset.not_mem_empty, or_false] at hx
      exact Or.inl hx)
    (by simp)
  refine ⟨p, hp, ?_, ?_, ?_⟩
  · have := cursorPath_length _ _ _ _ _ hp
    omega
  · rw [outerLoop_eq, hp]
    rfl
  · intro i hi s
    obtain ⟨q, hq⟩ := cursorPath_suffix _ _ _ _ _ hp i hi
    rw [innerLoop_eq, hq]
    exact ⟨_, rfl⟩

theorem C11_witness :
    ∃ p, cursorPath (fun c => castIdx (([1, 2, 0] : List ℚ).getD c 0)) rotatedTriple.shape0
        (rotatedTriple.shape0 + 1) 0 = some p ∧
      p.length ≤ rotatedTriple.shape0 ∧
      outerLoop rotatedTriple (areaRow rotatedTriple (zeroTempspace 3)) [1, 2, 0] 2
          (rotatedTriple.shape0 + 1) 0 ⟨fun _ => 0, fun _ => 0, 0⟩
        = some (greedy rotatedTriple (areaRow rotatedTriple (zeroTempspace 3)) 2 p
            ⟨fun _ => 0, fun _ => 0, 0⟩) ∧
      ∀ i ∈ p, ∀ s, ∃ s',
        innerLoop rotatedTriple (areaRow rotatedTriple (zeroTempspace 3)) [1, 2, 0] 2 i
          (rotatedTriple.shape0 + 1) (i + 1) s = some s' :=
  C11_sweep_terminates rotatedTriple (areaRow rotatedTriple (zeroTempspace 3)) [1, 2, 0] 2
    ⟨fun _ => 0, fun _ => 0, 0⟩ (by decide!)

/-! ### Index cells beyond the exact range of binary32 -/

theorem cursorPath_stuck (idx : ℕ → ℕ) (n : ℕ) (h : ∀ c, idx c + 1 < n) :
    ∀ (fuel c : ℕ), c < n → cursorPath idx n fuel c = none := by
  intro fuel
  induction fuel with
  | zero => intro c _; rfl
  | succ fuel ih =>
    intro c hc
    unfold cursorPath
    rw [if_pos hc, ih _ (h c)]
    rfl

theorem floatOfIndex_first_inexact : floatOfIndex (2 ^ 24 + 1) = 2 ^ 24 := by
  decide!

theorem orderRow_cells_small (stdSort : (ℚ → ℚ → Bool) → List ℚ → List ℚ)
    (hs : StdSortSpec stdSort) (dets tempspace : Tensor2) (hbig : dets.shape0 = 2 ^ 24 + 2) :
    ∀ c, castIdx ((orderRow stdSort dets tempspace).getD c 0) ≤ 2 ^ 24 := by
  intro c
  have hperm := (hs (scoreRow dets tempspace) (List.map floatOfIndex (List.range dets.shape0))).1
  by_cases hc : c < (orderRow stdSort dets tempspace).length
  · rw [List.getD_eq_getElem _ _ hc]
    have hmem : (orderRow stdSort dets tempspace)[c] ∈
        List.map floatOfIndex (List.range dets.shape0) :=
      (hperm.mem_iff).1 (List.getElem_mem _)
    obtain ⟨k, hk, hkx⟩ := List.mem_map.1 hmem
    rw [← hkx]
    have hk' : k < 2 ^ 24 + 2 := by rw [← hbig]; exact List.mem_range.1 hk
    by_cases hk2 : k ≤ 2 ^ 24
    · rw [castIdx_floatOfIndex k hk2]
      exact hk2
    · have e : k = 2 ^ 24 + 1 := by omega
      rw [e, floatOfIndex_first_inexact]
      have : castIdx ((2 : ℚ) ^ 24) = 2 ^ 24 := by
        have := castIdx_natCast (2 ^ 24)
        push_cast at this
        exact this
      rw [this]
  · rw [List.getD_eq_default _ _ (not_lt.1 hc)]
    simp [castIdx]

/-- With `2 ^ 24 + 2` rows no cell of the order row holds the last index, no
cursor reaches `n`, and the run does not return, whatever the fuel. -/
theorem nms_never_returns (stdSort : (ℚ → ℚ → Bool) → List ℚ → List ℚ)
    (hs : StdSortSpec stdSort) (fuel : ℕ) (dets : Tensor2) (thresh : ℚ) (tempspace : Tensor2)
    (output : Tensor1) (hchk : ChecksPass dets tempspace) (hbig : dets.shape0 = 2 ^ 24 + 2) :
    NonMaximumSuppression stdSort fuel dets thresh tempspace output = Except.ok none := by
  obtain ⟨h1, h2, h3, h4, h5, h6⟩ := hchk
  have hsmall := orderRow_cells_small stdSort hs dets tempspace hbig
  have hstuck := cursorPath_stuck
    (fun c => castIdx ((orderRow stdSort dets tempspace).getD c 0)) dets.shape0
    (by intro c; have := hsmall c; simp only; omega) fuel 0 h4
  unfold NonMaximumSuppression
  simp only [h1, h3, h4, h5, h6, ← h2, ne_eq, not_true_eq_false, if_false, gt_iff_lt,
    not_lt, not_le, outerLoop_eq, hstuck, Option.map_none']

theorem hugeDets_checks : ChecksPass hugeDets (zeroTempspace (2 ^ 24 + 2)) :=
  ⟨rfl, rfl, rfl, by decide, rfl, rfl⟩

theorem hugeDets_descending :
    ∀ i j, i < j → j < hugeDets.shape0 → hugeDets.dptr j 4 < hugeDets.dptr i 4 := by
  intro i j hij _
  simp only [hugeDets, if_true, neg_lt_neg_iff, Nat.cast_lt]
  norm_num
  omega

/-- With `2 ^ 24 + 2` rows the run returns no count, whatever the threshold and
the fuel. -/
theorem hugeDets_no_count (thresh : ℚ) :
    ¬ ∃ fuel r, NonMaximumSuppression insertionStdSort fuel hugeDets thresh
      (zeroTempspace (2 ^ 24 + 2)) (zeroOutput (2 ^ 24 + 2)) = Except.ok (some r) := by
  rintro ⟨fuel, r, h⟩
  rw [nms_never_returns insertionStdSort insertionStdSort_spec fuel hugeDets thresh
    (zeroTempspace (2 ^ 24 + 2)) (zeroOutput (2 ^ 24 + 2)) hugeDets_checks rfl] at h
  simp at h

/-- Claim C8 fails as stated: on `chainDets` (rows in descending score order) the
thresholds `0.3 <= 0.5` of `[0, 1]` give the counts `3` and `2`; and on
`hugeDets`, of `2 ^ 24 + 2` rows, no count is returned at either threshold. -/
theorem C8_counterexample :
    keepAndCount (NonMaximumSuppression insertionStdSort 5 chainDets (3 / 10) (zeroTempspace 4)
      (zeroOutput 4)) = some ([0, 2, 3], 3) ∧
    keepAndCount (NonMaximumSuppression insertionStdSort 5 chainDets (1 / 2) (zeroTempspace 4)
      (zeroOutput 4)) = some ([0, 1], 2) ∧
    (0 : ℚ) ≤ 3 / 10 ∧ (3 / 10 : ℚ) ≤ 1 / 2 ∧ (1 / 2 : ℚ) ≤ 1 ∧ ¬ (3 ≤ 2) ∧
    (¬ ∃ fuel r, NonMaximumSuppression insertionStdSort fuel hugeDets (3 / 10)
      (zeroTempspace (2 ^ 24 + 2)) (zeroOutput (2 ^ 24 + 2)) = Except.ok (some r)) ∧
    ¬ ∃ fuel r, NonMaximumSuppression insertionStdSort fuel hugeDets (1 / 2)
      (zeroTempspace (2 ^ 24 + 2)) (zeroOutput (2 ^ 24 + 2)) = Except.ok (some r) :=
  ⟨by decide!, by decide!, by decide!, by decide!, by decide!, by decide,
    hugeDets_no_count (3 / 10), hugeDets_no_count (1 / 2)⟩

/-- Claim C2 fails as stated: `hugeDets` has `2 ^ 24 + 2` rows with strictly
decreasing scores, it passes the checks with an all-zero `surprised` row, and
the run returns nothing, whatever the fuel: the index `2 ^ 24 + 1` is stored as
`2 ^ 24` in the order row, so no cursor reaches `n`. -/
theorem C2_counterexample :
    (∀ i j, i < j → j < hugeDets.shape0 → hugeDets.dptr j 4 < hugeDets.dptr i 4) ∧
    ChecksPass hugeDets (zeroTempspace (2 ^ 24 + 2)) ∧
    ZeroSurprised hugeDets (zeroTempspace (2 ^ 24 + 2)) ∧
    ¬ ∃ fuel r, NonMaximumSuppression insertionStdSort fuel hugeDets (1 / 2)
      (zeroTempspace (2 ^ 24 + 2)) (zeroOutput (2 ^ 24 + 2)) = Except.ok (some r) := by
  refine ⟨hugeDets_descending, hugeDets_checks, fun _ _ => rfl, ?_⟩
  rintro ⟨fuel, r, h⟩
  rw [nms_never_returns insertionStdSort insertionStdSort_spec fuel hugeDets (1 / 2)
    (zeroTempspace (2 ^ 24 + 2)) (zeroOutput (2 ^ 24 + 2)) hugeDets_checks rfl] at h
  simp at h

/-- Claim C10 fails as stated: `hugeDets` has `n = 2 ^ 24 + 2 >= 1` rows, it
passes the checks with an all-zero `surprised` row, and the run returns no
count, whatever the fuel and whatever sort meets the contract of `std::sort`. -/
theorem C10_counterexample :
    ChecksPass hugeDets (zeroTempspace (2 ^ 24 + 2)) ∧
    ZeroSurprised hugeDets (zeroTempspace (2 ^ 24 + 2)) ∧ 1 ≤ hugeDets.shape0 ∧
    ∀ stdSort, StdSortSpec stdSort →
      ¬ ∃ fuel r, NonMaximumSuppression stdSort fuel hugeDets (3 / 10)
        (zeroTempspace (2 ^ 24 + 2)) (zeroOutput (2 ^ 24 + 2)) = Except.ok (some r) := by
  refine ⟨hugeDets_checks, fun _ _ => rfl, by decide, ?_⟩
  rintro stdSort hs ⟨fuel, r, h⟩
  rw [nms_never_returns stdSort hs fuel hugeDets (3 / 10)
    (zeroTempspace (2 ^ 24 + 2)) (zeroOutput (2 ^ 24 + 2)) hugeDets_checks rfl] at h
  simp at h

/-- Claim C12 fails as stated: on `hugeDets`, which passes the checks, the run
returns no count, whatever the threshold and the fuel. -/
theorem C12_counterexample :
    ChecksPass hugeDets (zeroTempspace (2 ^ 24 + 2)) ∧
    ∀ thresh : ℚ,
      ¬ ∃ fuel r, NonMaximumSuppression insertionStdSort fuel hugeDets thresh
        (zeroTempspace (2 ^ 24 + 2)) (zeroOutput (2 ^ 24 + 2)) = Except.ok (some r) := by
  refine ⟨hugeDets_checks, ?_⟩
  rintro thresh ⟨fuel, r, h⟩
  rw [nms_never_returns insertionStdSort insertionStdSort_spec fuel hugeDets thresh
    (zeroTempspace (2 ^ 24 + 2)) (zeroOutput (2 ^ 24 + 2)) hugeDets_checks rfl] at h
  simp at h

/-- On the scenario of the specification the binary32 run keeps rows `0` and
`2`, as the run over exact arithmetic does. -/
theorem nms32_scenario :
    keepAndCount32 (NonMaximumSuppression32 insertionStdSort 4 scenarioDets (1 / 2)
      (zeroTempspace 3) (zeroOutput 3)) = some ([0, 2], 2) := by
  decide!

/-- On two identical boxes of side `9` the binary32 run keeps one row. -/
theorem nms32_twin :
    keepAndCount32 (NonMaximumSuppression32 insertionStdSort 3 twinDets (1 / 2)
      (zeroTempspace 2) (zeroOutput 2)) = some ([0], 1) := by
  decide!

end RcnnUtils
